import Mathlib

/-! # typewriter `template` package: rendering of a type tree through text fragments

A shallow embedding of `template/template.go` and a verification of its
rendering contract.

Modelling conventions.

* A Go `string` is a `Str`, a list of characters; every character stands for
  one byte of the Go string.  `strings.Index`, `strings.Split` and slicing work
  position by position, as they do on bytes.
* Nodes live in a heap (`List Node`) and a `Templater` interface value is
  either `nil` (`none`) or a pointer into that heap (`some r`).  Methods with a
  pointer receiver read and write the heap cell of their receiver, so the
  in-place updates of `Field.Template` are visible to every later reader.
* The output sink is append-only and cannot be read back; every operation
  returns the text it appended.
* Dynamic dispatch through the `Templater` interface costs one unit of fuel,
  since a cyclic heap makes the Go program recurse without end.
-/

namespace template

/-- Go `string`: a sequence of bytes, one `Char` per byte. -/
abbrev Str := List Char

/-! ## Go standard library functions used by the package -/

namespace strings

/-- Scan of `strings.Index`: `i` is the position of the head of the remaining
text. -/
def indexFrom (substr : Str) : Str → Nat → Int
  | [], i => if substr = [] then (i : Int) else -1
  | c :: cs, i => if substr.isPrefixOf (c :: cs) then (i : Int) else indexFrom substr cs (i + 1)

/-- Go `strings.Index(s, substr)`: the position of the first occurrence of
`substr` in `s`, or `-1` when there is none. -/
def Index (s substr : Str) : Int := indexFrom substr s 0

/-- Scan of `strings.Split` for a one-byte separator; `cur` holds the part
being read, reversed. -/
def splitAux (sep : Char) : Str → Str → List Str
  | [], cur => [cur.reverse]
  | c :: cs, cur => if c = sep then cur.reverse :: splitAux sep cs [] else splitAux sep cs (c :: cur)

/-- Go `strings.Split(s, sep)` for a one-byte separator (the package only
splits on `","`): all the parts of `s` between separators, at least one. -/
def Split (s : Str) (sep : Char) : List Str := splitAux sep s []

end strings

/-- Go `error` values that the package can see. -/
inductive Error where
  /-- The package-level `errNoType`. -/
  | errNoType
  /-- The `*strconv.NumError` of a failed `strconv.ParseBool(str)`. -/
  | parseBool (str : Str)
  /-- An error of `text/template` (a missing or malformed file, a failed execution). -/
  | tmpl (msg : String)
  deriving DecidableEq, Repr

/-- The package variable `errNoType`. -/
def errNoType : Error := Error.errNoType

namespace strconv

/-- Go `strconv.ParseBool`: the accepted spellings, and `(false, err)` for
everything else. -/
def ParseBool (str : Str) : Bool × Option Error :=
  if str ∈ ["1".toList, "t".toList, "T".toList, "TRUE".toList, "true".toList, "True".toList] then
    (true, none)
  else if str ∈ ["0".toList, "f".toList, "F".toList, "FALSE".toList, "false".toList, "False".toList] then
    (false, none)
  else
    (false, some (Error.parseBool str))

end strconv

/-! ## The tag parser -/

/-- Source `getTag(tag, tags)`. -/
def getTag (tag : Str) (tags : Str) : Str :=
  let loc := strings.Index tags (tag ++ [':', '"'])
  if loc > -1 then
    let bs := tags.drop (loc + (tag.length : Int) + 2).toNat
    let loc := strings.Index bs ['"']
    if loc = -1 then
      []
    else
      bs.take loc.toNat
  else
    []

/-! ## Nodes, heap and the rendering monad -/

/-- A pointer to a node: its index in the heap. -/
abbrev Ref := Nat

/-- A value of the interface `Templater`: `nil`, or a pointer to a node. -/
abbrev Templater := Option Ref

/-- Source `type Basic struct`.  (`Type` is a Lean keyword: the field is `Typ`.) -/
structure Basic where
  Typ : Str
  Pointer : Bool
  deriving DecidableEq, Repr

/-- Source `type Map struct`. -/
structure Map where
  Key : Templater
  Value : Templater
  deriving DecidableEq, Repr

/-- Source `type Array struct`. -/
structure Array where
  Typ : Templater
  deriving DecidableEq, Repr

/-- Source `type Field struct`. -/
structure Field where
  Name : Str
  Typ : Templater
  Comment : Str
  Tag : Str
  deriving DecidableEq, Repr

/-- Source `type Struct struct`. -/
structure Struct where
  Fields : List Field
  Strict : Bool
  Embedded : List Str
  deriving DecidableEq, Repr

/-- Source `type PackageType struct`. -/
structure PackageType where
  Name : Str
  Comment : Str
  Typ : Templater
  Tag : Str
  deriving DecidableEq, Repr

/-- What a pointer can point to: one of the six types with a `Template` method. -/
inductive Node where
  | basic (b : Basic)
  | map (m : Map)
  | array (a : Array)
  | struct (s : Struct)
  | field (f : Field)
  | packageType (p : PackageType)
  deriving DecidableEq, Repr

/-- The memory holding the nodes. -/
abbrev Heap := List Node

/-- One entry written through logrus: the error, the extra fields, the message. -/
structure LogEntry where
  err : Error
  fields : List (String × Str)
  msg : Str
  deriving DecidableEq, Repr

/-- The state a render works on: the heap and the log. -/
structure State where
  heap : Heap
  log : List LogEntry
  deriving DecidableEq, Repr

/-- The `data` argument of `tmpl.Execute(w, data)`. -/
inductive Data where
  /-- The call `Execute(w, nil)`. -/
  | nil
  /-- A pointer to a node: the receiver `t` of a `Template` method. -/
  | ptr (r : Ref)
  /-- A `Field` passed by value: the loop variable `v` of `Struct.Template`. -/
  | field (v : Field)
  deriving DecidableEq, Repr

/-- A parsed `*template.Template`.  Executing it reads the data and the memory
reachable from it, writes some text, and may fail after having written part of
it. -/
structure Tmpl where
  Execute : Heap → Data → Str × Option Error

/-- Source type `Language`, declared outside `template.go`; only its `%s`
rendering is used. -/
abbrev Language := String

/-- The surroundings of the package: the fragment files, `funcMap`, and the
current value of the package variable `templatepath`. -/
structure Env where
  /-- Go `fmt.Sprintf(templatepath, path)`; `templatepath` starts as
  `"./template/templates/%s"` and tests change it. -/
  templatepath : String → String
  /-- Go `template.New(name).Funcs(funcMap).ParseFiles(filename)`. -/
  ParseFiles : String → String → Except Error Tmpl
  /-- Go `template.New(name).Parse(text)` for a text with an action in it. -/
  Parse : String → Str → Except Error Tmpl

/-- How a call ends: it returns, possibly with a Go error; or it panics (a
method called through a `nil` interface, an invalid pointer); or the fuel of
the model ran out. -/
inductive Res (α : Type) where
  | ok (a : α)
  | err (e : Error)
  | panic
  | outOfFuel
  deriving DecidableEq, Repr

/-- The effect of a call: the state it leaves, the text it appended to the
sink, and how it ended. -/
structure Outcome (α : Type) where
  st : State
  out : Str
  res : Res α
  deriving DecidableEq, Repr

/-- A computation of the package. -/
def M (α : Type) : Type := State → Outcome α

/-- Return `a`, writing nothing. -/
def M.pure {α : Type} (a : α) : M α := fun s => ⟨s, [], Res.ok a⟩

/-- Run `m`; when it returns normally go on with `f`, appending its text. -/
def M.bind {α β : Type} (m : M α) (f : α → M β) : M β := fun s =>
  match m s with
  | ⟨s1, o1, Res.ok a⟩ => ⟨(f a s1).st, o1 ++ (f a s1).out, (f a s1).res⟩
  | ⟨s1, o1, Res.err e⟩ => ⟨s1, o1, Res.err e⟩
  | ⟨s1, o1, Res.panic⟩ => ⟨s1, o1, Res.panic⟩
  | ⟨s1, o1, Res.outOfFuel⟩ => ⟨s1, o1, Res.outOfFuel⟩

instance : Monad M where
  pure := M.pure
  bind := M.bind

/-- Go `return err` with a non-nil error. -/
def fail {α : Type} (e : Error) : M α := fun s => ⟨s, [], Res.err e⟩

/-- A run-time panic. -/
def panic {α : Type} : M α := fun s => ⟨s, [], Res.panic⟩

/-- The model has no fuel left for another dynamic call. -/
def outOfFuel {α : Type} : M α := fun s => ⟨s, [], Res.outOfFuel⟩

/-- The result of a Go call returning `(value, error)`. -/
def liftExcept {α : Type} : Except Error α → M α
  | Except.ok a => M.pure a
  | Except.error e => fail e

/-- A call whose returned error is dropped by the caller. -/
def ignoreErr (m : M Unit) : M Unit := fun s =>
  match m s with
  | ⟨s1, o1, Res.err _⟩ => ⟨s1, o1, Res.ok ()⟩
  | o => o

/-- Go `&T{...}`: a new node at a fresh address. -/
def alloc (n : Node) : M Ref := fun s =>
  ⟨{ s with heap := s.heap ++ [n] }, [], Res.ok s.heap.length⟩

/-- Read `*t` for a `*Field`. -/
def derefField (t : Ref) : M Field := fun s =>
  match s.heap[t]? with
  | some (Node.field f) => ⟨s, [], Res.ok f⟩
  | _ => ⟨s, [], Res.panic⟩

/-- Read `*t` for a `*Map`. -/
def derefMap (t : Ref) : M Map := fun s =>
  match s.heap[t]? with
  | some (Node.map m) => ⟨s, [], Res.ok m⟩
  | _ => ⟨s, [], Res.panic⟩

/-- Read `*t` for an `*Array`. -/
def derefArray (t : Ref) : M Array := fun s =>
  match s.heap[t]? with
  | some (Node.array a) => ⟨s, [], Res.ok a⟩
  | _ => ⟨s, [], Res.panic⟩

/-- Read `*t` for a `*Struct`. -/
def derefStruct (t : Ref) : M Struct := fun s =>
  match s.heap[t]? with
  | some (Node.struct v) => ⟨s, [], Res.ok v⟩
  | _ => ⟨s, [], Res.panic⟩

/-- Read `*t` for a `*PackageType`. -/
def derefPackageType (t : Ref) : M PackageType := fun s =>
  match s.heap[t]? with
  | some (Node.packageType p) => ⟨s, [], Res.ok p⟩
  | _ => ⟨s, [], Res.panic⟩

/-- The assignment `t.Name = name` through a `*Field`. -/
def setName (t : Ref) (name : Str) : M Unit := fun s =>
  match s.heap[t]? with
  | some (Node.field f) => ⟨{ s with heap := s.heap.set t (Node.field { f with Name := name }) }, [], Res.ok ()⟩
  | _ => ⟨s, [], Res.panic⟩

/-- The assignment `t.Type = typ` through a `*Field`. -/
def setType (t : Ref) (typ : Templater) : M Unit := fun s =>
  match s.heap[t]? with
  | some (Node.field f) => ⟨{ s with heap := s.heap.set t (Node.field { f with Typ := typ }) }, [], Res.ok ()⟩
  | _ => ⟨s, [], Res.panic⟩

/-- A logrus `Error`/`Errorf` call: one more log entry; the run goes on. -/
def logError (e : LogEntry) : M Unit := fun s =>
  ⟨{ s with log := s.log ++ [e] }, [], Res.ok ()⟩

/-- Go `tmpl.Execute(w, data)`: the text goes to the sink, also when the
execution fails part-way. -/
def Tmpl.run (tmpl : Tmpl) (data : Data) : M Unit := fun s =>
  match tmpl.Execute s.heap data with
  | (txt, none) => ⟨s, txt, Res.ok ()⟩
  | (txt, some e) => ⟨s, txt, Res.err e⟩

/-! ## The package -/

/-- Source `newTemplate(name, path)`. -/
def newTemplate (E : Env) (name path : String) : Except Error Tmpl :=
  E.ParseFiles name (E.templatepath path)

/-- Source `Header(w, lang)`. -/
def Header (E : Env) (lang : Language) : M Unit := do
  let tmpl ← liftExcept (newTemplate E "header.tmpl" (lang ++ "/header.tmpl"))
  tmpl.run Data.nil

/-- Go `template.New(name).Parse(text)`.  A text without the action delimiter
(two opening braces) is a template that writes the text itself. -/
def parseText (E : Env) (name : String) (text : Str) : Except Error Tmpl :=
  if strings.Index text [Char.ofNat 123, Char.ofNat 123] = -1 then
    Except.ok ⟨fun _ _ => (text, none)⟩
  else
    E.Parse name text

/-- Source `Raw(w, raw)`. -/
def Raw (E : Env) (raw : Str) : M Unit := do
  let tmpl ← liftExcept (parseText E "raw" raw)
  tmpl.run Data.nil

/-- Source `(t *PackageType) Template`.  `dyn` is the call of `Template`
through the interface. -/
def PackageType.Template (dyn : Templater → M Unit) (E : Env) (lang : Language) (t : Ref) :
    M Unit := do
  let tmpl ← liftExcept (newTemplate E "declaration.tmpl" (lang ++ "/declaration.tmpl"))
  tmpl.run (Data.ptr t)
  let p ← derefPackageType t
  if p.Typ = none then do
    logError ⟨errNoType, [("name", p.Name)], "error while writing package type".toList⟩
    fail errNoType
  else
    dyn p.Typ

/-- Source `(t *Basic) Template`. -/
def Basic.Template (E : Env) (lang : Language) (t : Ref) : M Unit := do
  let tmpl ← liftExcept (newTemplate E "basic.tmpl" (lang ++ "/basic.tmpl"))
  tmpl.run (Data.ptr t)

/-- Source `(t *Map) Template`. -/
def Map.Template (dyn : Templater → M Unit) (E : Env) (lang : Language) (t : Ref) : M Unit := do
  let tmpl ← liftExcept (newTemplate E "map_key.tmpl" (lang ++ "/map_key.tmpl"))
  tmpl.run (Data.ptr t)
  let m ← derefMap t
  dyn m.Key
  let tmpl ← liftExcept (newTemplate E "map_value.tmpl" (lang ++ "/map_value.tmpl"))
  tmpl.run (Data.ptr t)
  let m ← derefMap t
  dyn m.Value
  let tmpl ← liftExcept (newTemplate E "map_close.tmpl" (lang ++ "/map_close.tmpl"))
  tmpl.run (Data.ptr t)

/-- Source `(t *Array) Template`. -/
def Array.Template (dyn : Templater → M Unit) (E : Env) (lang : Language) (t : Ref) : M Unit := do
  let tmpl ← liftExcept (newTemplate E "array_open.tmpl" (lang ++ "/array_open.tmpl"))
  tmpl.run (Data.ptr t)
  let a ← derefArray t
  dyn a.Typ
  let tmpl ← liftExcept (newTemplate E "array_close.tmpl" (lang ++ "/array_close.tmpl"))
  tmpl.run (Data.ptr t)

/-- Source `(t *Field) Template`. -/
def Field.Template (dyn : Templater → M Unit) (E : Env) (lang : Language) (t : Ref) : M Unit := do
  let f ← derefField t
  let jsonName := (strings.Split (getTag "json".toList f.Tag) ',').headD []
  (if jsonName ≠ [] then
    setName t jsonName
  else
    M.pure ())
  let tmpl ← liftExcept (newTemplate E "field_name.tmpl" (lang ++ "/field_name.tmpl"))
  tmpl.run (Data.ptr t)
  -- If there is an override type on the struct field
  let f ← derefField t
  let override := strings.Split (getTag "tw".toList f.Tag) ','
  (match override with
  | [o0, o1] => do
    (match (strconv.ParseBool o1).2 with
    | some err => logError ⟨err, [], "error parsing bool for type ".toList ++ f.Name⟩
    | none => M.pure ())
    let b ← alloc (Node.basic { Typ := o0, Pointer := (strconv.ParseBool o1).1 })
    setType t (some b)
  | [o0] =>
    if o0 ≠ [] then do
      let b ← alloc (Node.basic { Typ := o0, Pointer := false })
      setType t (some b)
    else
      M.pure ()
  | _ => M.pure ())
  let f ← derefField t
  dyn f.Typ

/-- The body of the loop `for i, v := range t.Fields` of `Struct.Template`, for
the elements from index `i` on.  The loop variable `v` is a copy of the
element; its address is the receiver of `v.Template`. -/
def Struct.rangeFields (dyn : Templater → M Unit) (E : Env) (lang : Language) (t : Ref) :
    Nat → List Field → M Unit
  | _, [] => M.pure ()
  | i, v :: rest => do
    let pv ← alloc (Node.field v)
    Field.Template dyn E lang pv
    let s ← derefStruct t
    (if (i : Int) < (s.Fields.length : Int) - 1 then do
      let tmpl ← liftExcept (newTemplate E "field_close.tmpl" (lang ++ "/field_close.tmpl"))
      tmpl.run Data.nil
      let tmpl ← liftExcept (newTemplate E "comment.tmpl" (lang ++ "/comment.tmpl"))
      let v ← derefField pv
      tmpl.run (Data.field v)
    else do
      let tmpl ← liftExcept (newTemplate E "comment.tmpl" (lang ++ "/comment.tmpl"))
      let v ← derefField pv
      tmpl.run (Data.field v)
      ignoreErr (Raw E ['\n']))
    Struct.rangeFields dyn E lang t (i + 1) rest

/-- Source `(t *Struct) Template`. -/
def Struct.Template (dyn : Templater → M Unit) (E : Env) (lang : Language) (t : Ref) : M Unit := do
  let tmpl ← liftExcept (newTemplate E "struct_open.tmpl" (lang ++ "/struct_open.tmpl"))
  tmpl.run (Data.ptr t)
  let s ← derefStruct t
  Struct.rangeFields dyn E lang t 0 s.Fields
  let tmpl ← liftExcept (newTemplate E "struct_close.tmpl" (lang ++ "/struct_close.tmpl"))
  tmpl.run (Data.ptr t)

/-- A call `x.Template(w, lang)` through the interface `Templater`: a panic on
a `nil` interface, otherwise the method of the node pointed to.  Every such
call uses one unit of fuel. -/
def Templater.Template (E : Env) (lang : Language) : Nat → Templater → M Unit
  | _, none => panic
  | 0, some _ => outOfFuel
  | n + 1, some r => fun s =>
    match s.heap[r]? with
    | none => panic s
    | some (Node.basic _) => Basic.Template E lang r s
    | some (Node.map _) => Map.Template (Templater.Template E lang n) E lang r s
    | some (Node.array _) => Array.Template (Templater.Template E lang n) E lang r s
    | some (Node.struct _) => Struct.Template (Templater.Template E lang n) E lang r s
    | some (Node.field _) => Field.Template (Templater.Template E lang n) E lang r s
    | some (Node.packageType _) => PackageType.Template (Templater.Template E lang n) E lang r s

/-! ## A small fragment set for worked examples -/

/-- The `basic` fragment of the examples: the `Type` of the node, with a star
after it for a pointer. -/
def demoBasic : Tmpl where
  Execute := fun h d =>
    match d with
    | Data.ptr r =>
      match h[r]? with
      | some (Node.basic b) => (b.Typ ++ (if b.Pointer then ['*'] else []), none)
      | _ => ([], none)
    | _ => ([], none)

/-- The `field_name` fragment of the examples: the `Name` of the field and a
colon. -/
def demoFieldName : Tmpl where
  Execute := fun h d =>
    match d with
    | Data.ptr r =>
      match h[r]? with
      | some (Node.field f) => (f.Name ++ [':'], none)
      | _ => ([], none)
    | _ => ([], none)

/-- The `comment` fragment of the examples: two slashes and the `Comment` of
the field. -/
def demoComment : Tmpl where
  Execute := fun _ d =>
    match d with
    | Data.field f => (['/', '/'] ++ f.Comment, none)
    | _ => ([], none)

/-- The `declaration` fragment of the examples: `type`, the `Name`, a blank. -/
def demoDeclaration : Tmpl where
  Execute := fun h d =>
    match d with
    | Data.ptr r =>
      match h[r]? with
      | some (Node.packageType p) => ("type ".toList ++ p.Name ++ [' '], none)
      | _ => ([], none)
    | _ => ([], none)

/-- A fragment that writes a fixed text. -/
def demoText (txt : String) : Tmpl where
  Execute := fun _ _ => (txt.toList, none)

/-- The fragment set of the examples.  Every other file is missing. -/
def demoEnv : Env where
  templatepath := fun p => "./template/templates/" ++ p
  ParseFiles := fun name _ =>
    match name with
    | "basic.tmpl" => Except.ok demoBasic
    | "declaration.tmpl" => Except.ok demoDeclaration
    | "map_key.tmpl" => Except.ok (demoText "map[")
    | "map_value.tmpl" => Except.ok (demoText "]")
    | "map_close.tmpl" => Except.ok (demoText "")
    | "array_open.tmpl" => Except.ok (demoText "[]")
    | "array_close.tmpl" => Except.ok (demoText "")
    | "struct_open.tmpl" => Except.ok (demoText "struct \x7b ")
    | "struct_close.tmpl" => Except.ok (demoText "\x7d")
    | "field_name.tmpl" => Except.ok demoFieldName
    | "field_close.tmpl" => Except.ok (demoText "; ")
    | "comment.tmpl" => Except.ok demoComment
    | _ => Except.error (Error.tmpl "open: no such file or directory")
  Parse := fun _ _ => Except.error (Error.tmpl "template: unexpected action")

/-- The fragment set of the examples with the file `name` removed. -/
def demoEnvWithout (missing : String) : Env where
  templatepath := demoEnv.templatepath
  ParseFiles := fun name filename =>
    if name = missing then Except.error (Error.tmpl "open: no such file or directory")
    else demoEnv.ParseFiles name filename
  Parse := demoEnv.Parse

/-- Example state: `Map{Key: Basic{"string"}, Value: Basic{"int"}}` at address 2. -/
def demoMapState : State :=
  ⟨[Node.basic ⟨"string".toList, false⟩, Node.basic ⟨"int".toList, false⟩,
    Node.map ⟨some 0, some 1⟩], []⟩

/-- Example state: `Array{Type: Array{Type: Basic{"int"}}}` at address 2, its
element at address 1. -/
def demoArrayState : State :=
  ⟨[Node.basic ⟨"int".toList, false⟩, Node.array ⟨some 0⟩, Node.array ⟨some 1⟩], []⟩

/-- Example state: `PackageType{Name: "T"}` without a `Type` at address 0, and
`PackageType{Name: "U", Type: Basic{"int"}}` at address 1. -/
def demoPackageState : State :=
  ⟨[Node.packageType ⟨"T".toList, [], none, []⟩, Node.packageType ⟨"U".toList, [], some 2, []⟩,
    Node.basic ⟨"int".toList, false⟩], []⟩

/-- Example state: the `Basic{"string"}` declared as the type of the fields, at
address 0, and four `Field`s named `Orig` at addresses 1 to 4, with the tags
`json:"alias,omitempty"`, `tw:"int64,true"`, `tw:"int64,notabool"` and no tag;
the last one has no `Type`. -/
def demoFieldState : State :=
  ⟨[Node.basic ⟨"string".toList, false⟩,
    Node.field ⟨"Orig".toList, some 0, [], "json:\"alias,omitempty\"".toList⟩,
    Node.field ⟨"Orig".toList, some 0, [], "tw:\"int64,true\"".toList⟩,
    Node.field ⟨"Orig".toList, some 0, [], "tw:\"int64,notabool\"".toList⟩,
    Node.field ⟨"Orig".toList, none, [], []⟩], []⟩

/-- Example struct: the field `A` of declared type `string`, with comment `ca`
and tag `json:"a,omitempty" tw:"int64,true"`, and the field `B` of type
`string`, with comment `cb` and no tag. -/
def demoStruct : Struct :=
  ⟨[⟨"A".toList, some 0, "ca".toList, "json:\"a,omitempty\" tw:\"int64,true\"".toList⟩,
    ⟨"B".toList, some 0, "cb".toList, []⟩], false, []⟩

/-- Example states: `demoStruct` at address 1, before the loop of
`Struct.Template` (index 0), after the render of `A` (index 1) and after the
render of `B` (from index 2 on).  Each render works on a copy of the field at a
fresh address; the override of `A` adds a `Basic{"int64", true}`. -/
def demoStructChain : Nat → State
  | 0 => ⟨[Node.basic ⟨"string".toList, false⟩, Node.struct demoStruct], []⟩
  | 1 => ⟨[Node.basic ⟨"string".toList, false⟩, Node.struct demoStruct,
      Node.field ⟨"a".toList, some 3, "ca".toList,
        "json:\"a,omitempty\" tw:\"int64,true\"".toList⟩,
      Node.basic ⟨"int64".toList, true⟩], []⟩
  | _ => ⟨[Node.basic ⟨"string".toList, false⟩, Node.struct demoStruct,
      Node.field ⟨"a".toList, some 3, "ca".toList,
        "json:\"a,omitempty\" tw:\"int64,true\"".toList⟩,
      Node.basic ⟨"int64".toList, true⟩,
      Node.field ⟨"B".toList, some 0, "cb".toList, []⟩], []⟩

/-- Example state: the `Basic{"string"}` declared as the type of the fields, at
address 0, and five `Field`s named `Orig` at addresses 1 to 5, with the tags
`tw:"int64"`, `tw:"int64,true,x"`, `tw:",true"`, `xml:"o"` and
`json:"alias" tw:"int64,true"`. -/
def demoTagState : State :=
  ⟨[Node.basic ⟨"string".toList, false⟩,
    Node.field ⟨"Orig".toList, some 0, [], "tw:\"int64\"".toList⟩,
    Node.field ⟨"Orig".toList, some 0, [], "tw:\"int64,true,x\"".toList⟩,
    Node.field ⟨"Orig".toList, some 0, [], "tw:\",true\"".toList⟩,
    Node.field ⟨"Orig".toList, some 0, [], "xml:\"o\"".toList⟩,
    Node.field ⟨"Orig".toList, some 0, [], "json:\"alias\" tw:\"int64,true\"".toList⟩], []⟩

/-- A `field_name` fragment that reads the `Type` of the field: the `Name`, a
blank, and the `Type` string of the `Basic` the field points to. -/
def demoFieldNameTyped : Tmpl where
  Execute := fun h d =>
    match d with
    | Data.ptr r =>
      match h[r]? with
      | some (Node.field f) =>
        match f.Typ with
        | some p =>
          match h[p]? with
          | some (Node.basic b) => (f.Name ++ [' '] ++ b.Typ ++ [':'], none)
          | _ => (f.Name ++ [':'], none)
        | none => (f.Name ++ [':'], none)
      | _ => ([], none)
    | _ => ([], none)

/-- The fragment set of the examples with `demoFieldNameTyped` as `field_name`. -/
def demoEnvTyped : Env where
  templatepath := demoEnv.templatepath
  ParseFiles := fun name filename =>
    if name = "field_name.tmpl" then Except.ok demoFieldNameTyped
    else demoEnv.ParseFiles name filename
  Parse := demoEnv.Parse

/-- Example state: a `Struct` without fields at address 0. -/
def demoEmptyStructState : State :=
  ⟨[Node.struct ⟨[], false, []⟩], []⟩

/-- A tag written in the conventional way, as the specification describes the
tag mini-language: the pairs `key:"value"` one after the other, with a blank
between two pairs.  The keys of the tag are the first components. -/
def tagOfPairs : List (Str × Str) → Str
  | [] => []
  | [(k, v)] => k ++ [':', '"'] ++ v ++ ['"']
  | (k, v) :: rest => k ++ [':', '"'] ++ v ++ ['"', ' '] ++ tagOfPairs rest

/-- Example state: the `Basic{"string"}` declared as the type of the fields, at
address 0, and two `Field`s named `Orig` whose only keys are `xjson` (address
1, tag `xjson:"foo"`) and `xtw` (address 2, tag `xtw:"int64"`). -/
def demoKeyState : State :=
  ⟨[Node.basic ⟨"string".toList, false⟩,
    Node.field ⟨"Orig".toList, some 0, [], tagOfPairs [("xjson".toList, "foo".toList)]⟩,
    Node.field ⟨"Orig".toList, some 0, [], tagOfPairs [("xtw".toList, "int64".toList)]⟩], []⟩

/-! ## Notions used to state the properties -/

/-- The display name that a tag asks for: the text of its `json` value before
the first comma, empty when there is none. -/
def tagAlias (tag : Str) : Str :=
  (strings.Split (getTag "json".toList tag) ',').headD []

/-- The `Basic` that a tag asks for as type override through its `tw` value:
two parts give the type and the pointer flag (`false` when the flag is not a
boolean), one non-empty part gives the type, anything else gives nothing. -/
def tagOverride (tag : Str) : Option Basic :=
  match strings.Split (getTag "tw".toList tag) ',' with
  | [o0, o1] => some { Typ := o0, Pointer := (strconv.ParseBool o1).1 }
  | [o0] => if o0 ≠ [] then some { Typ := o0, Pointer := false } else none
  | _ => none

/-- The field as `Field.Template` leaves it after its first step: the `Name`
is the alias of the tag when there is one. -/
def Field.renamed (f : Field) : Field :=
  if tagAlias f.Tag ≠ [] then { f with Name := tagAlias f.Tag } else f

/-- How a heap cell can change during a render.  A `Field` keeps its `Comment`
and `Tag`; its `Name` can only become the alias of its tag and its `Type` can
only change when its tag has an override.  Every other node stays as it is. -/
def Node.evolves : Node → Node → Prop
  | Node.field f, Node.field g =>
    g.Comment = f.Comment ∧ g.Tag = f.Tag ∧
      (g.Name = f.Name ∨ (tagAlias f.Tag ≠ [] ∧ g.Name = tagAlias f.Tag)) ∧
      (g.Typ = f.Typ ∨ tagOverride f.Tag ≠ none)
  | n, n' => n' = n

/-- Every cell of `s` is still there in `s'`, changed at most as `Node.evolves`
allows. -/
def Frame (s s' : State) : Prop :=
  ∀ (r : Ref) (n : Node), s.heap[r]? = some n → ∃ n', s'.heap[r]? = some n' ∧ Node.evolves n n'

/-- A computation that respects `Frame` from every state. -/
def Framed {α : Type} (m : M α) : Prop := ∀ s, Frame s (m s).st

/-- The computation `m'` ends as `m` does from every state in which `m` does
not run out of fuel. -/
def Extends {α : Type} (m m' : M α) : Prop :=
  ∀ s, (m s).res ≠ Res.outOfFuel → m' s = m s

/-! ## Laws of the rendering monad -/

theorem bind_eq {α β : Type} (m : M α) (f : α → M β) : (m >>= f) = M.bind m f := rfl

theorem pure_eq {α : Type} (a : α) : (pure a : M α) = M.pure a := rfl

theorem M.bind_res {α β : Type} (m : M α) (f : α → M β) (s : State) :
    M.bind m f s =
      match (m s).res with
      | Res.ok a => ⟨(f a (m s).st).st, (m s).out ++ (f a (m s).st).out, (f a (m s).st).res⟩
      | Res.err e => ⟨(m s).st, (m s).out, Res.err e⟩
      | Res.panic => ⟨(m s).st, (m s).out, Res.panic⟩
      | Res.outOfFuel => ⟨(m s).st, (m s).out, Res.outOfFuel⟩ := by
  unfold M.bind
  rcases m s with ⟨s1, o1, r⟩
  cases r <;> rfl

theorem M.bind_ok {α β : Type} {m : M α} {f : α → M β} {s : State} {a : α}
    (h : (m s).res = Res.ok a) :
    M.bind m f s = ⟨(f a (m s).st).st, (m s).out ++ (f a (m s).st).out, (f a (m s).st).res⟩ := by
  rw [M.bind_res, h]

theorem M.bind_eq_of_eq {α β : Type} {m : M α} {f : α → M β} {s s1 : State} {o1 : Str} {a : α}
    (h : m s = ⟨s1, o1, Res.ok a⟩) :
    M.bind m f s = ⟨(f a s1).st, o1 ++ (f a s1).out, (f a s1).res⟩ := by
  simp [M.bind, h]

/-! ### The state left by the primitive steps -/

theorem liftExcept_st {α : Type} (x : Except Error α) (s : State) : (liftExcept x s).st = s := by
  cases x <;> rfl

theorem Tmpl.run_st (tmpl : Tmpl) (data : Data) (s : State) : (tmpl.run data s).st = s := by
  unfold Tmpl.run
  split <;> rfl

theorem derefField_st (t : Ref) (s : State) : (derefField t s).st = s := by
  unfold derefField
  split <;> rfl

theorem derefMap_st (t : Ref) (s : State) : (derefMap t s).st = s := by
  unfold derefMap
  split <;> rfl

theorem derefArray_st (t : Ref) (s : State) : (derefArray t s).st = s := by
  unfold derefArray
  split <;> rfl

theorem derefStruct_st (t : Ref) (s : State) : (derefStruct t s).st = s := by
  unfold derefStruct
  split <;> rfl

theorem derefPackageType_st (t : Ref) (s : State) : (derefPackageType t s).st = s := by
  unfold derefPackageType
  split <;> rfl

theorem derefField_res {t : Ref} {s : State} {f : Field} (h : (derefField t s).res = Res.ok f) :
    s.heap[t]? = some (Node.field f) := by
  unfold derefField at h
  split at h
  · next g hg =>
    simp only [Res.ok.injEq] at h
    rw [hg, h]
  · simp at h

theorem liftExcept_ok {α : Type} (a : α) (s : State) :
    liftExcept (Except.ok a) s = ⟨s, [], Res.ok a⟩ := rfl

theorem liftExcept_error {α : Type} (e : Error) (s : State) :
    (liftExcept (Except.error e) : M α) s = ⟨s, [], Res.err e⟩ := rfl

theorem Tmpl.run_ok {tmpl : Tmpl} {data : Data} {s : State} {txt : Str}
    (h : tmpl.Execute s.heap data = (txt, none)) : tmpl.run data s = ⟨s, txt, Res.ok ()⟩ := by
  simp [Tmpl.run, h]

theorem Tmpl.run_err {tmpl : Tmpl} {data : Data} {s : State} {txt : Str} {e : Error}
    (h : tmpl.Execute s.heap data = (txt, some e)) : tmpl.run data s = ⟨s, txt, Res.err e⟩ := by
  simp [Tmpl.run, h]

theorem derefMap_eq {t : Ref} {m : Map} {s : State} (h : s.heap[t]? = some (Node.map m)) :
    derefMap t s = ⟨s, [], Res.ok m⟩ := by
  simp [derefMap, h]

theorem derefArray_eq {t : Ref} {a : Array} {s : State} (h : s.heap[t]? = some (Node.array a)) :
    derefArray t s = ⟨s, [], Res.ok a⟩ := by
  simp [derefArray, h]

theorem derefStruct_eq {t : Ref} {v : Struct} {s : State} (h : s.heap[t]? = some (Node.struct v)) :
    derefStruct t s = ⟨s, [], Res.ok v⟩ := by
  simp [derefStruct, h]

theorem derefField_eq {t : Ref} {f : Field} {s : State} (h : s.heap[t]? = some (Node.field f)) :
    derefField t s = ⟨s, [], Res.ok f⟩ := by
  simp [derefField, h]

theorem derefPackageType_eq {t : Ref} {p : PackageType} {s : State}
    (h : s.heap[t]? = some (Node.packageType p)) : derefPackageType t s = ⟨s, [], Res.ok p⟩ := by
  simp [derefPackageType, h]

theorem setName_eq {t : Ref} {f : Field} {s : State} (name : Str)
    (h : s.heap[t]? = some (Node.field f)) :
    setName t name s
      = ⟨{ s with heap := s.heap.set t (Node.field { f with Name := name }) }, [], Res.ok ()⟩ := by
  simp [setName, h]

theorem setType_eq {t : Ref} {f : Field} {s : State} (typ : Templater)
    (h : s.heap[t]? = some (Node.field f)) :
    setType t typ s
      = ⟨{ s with heap := s.heap.set t (Node.field { f with Typ := typ }) }, [], Res.ok ()⟩ := by
  simp [setType, h]

/-! ## Frame: what a render can change in the heap -/

theorem Node.evolves_refl (n : Node) : Node.evolves n n := by
  cases n <;> simp [Node.evolves]

theorem Node.evolves_trans {a b c : Node} (h1 : Node.evolves a b) (h2 : Node.evolves b c) :
    Node.evolves a c := by
  cases a <;> cases b <;> cases c <;> simp_all [Node.evolves]
  next f g k =>
    obtain ⟨_, hgt, hn1, ht1⟩ := h1
    obtain ⟨_, _, hn2, ht2⟩ := h2
    constructor
    · rcases hn2 with h | h
      · rw [h]; exact hn1
      · exact Or.inr h
    · rcases ht2 with h | h
      · rw [h]; exact ht1
      · exact Or.inr h

theorem Node.evolves_of_not_field {n n' : Node} (h : Node.evolves n n')
    (hn : ∀ f, n ≠ Node.field f) : n' = n := by
  cases n <;> cases n' <;> simp_all [Node.evolves]

theorem Node.evolves_field {f : Field} {n' : Node} (h : Node.evolves (Node.field f) n') :
    ∃ g, n' = Node.field g ∧ g.Comment = f.Comment ∧ g.Tag = f.Tag ∧
      (g.Name = f.Name ∨ (tagAlias f.Tag ≠ [] ∧ g.Name = tagAlias f.Tag)) ∧
      (g.Typ = f.Typ ∨ tagOverride f.Tag ≠ none) := by
  cases n' <;> simp_all [Node.evolves]

theorem Frame.refl (s : State) : Frame s s :=
  fun _ n h => ⟨n, h, Node.evolves_refl n⟩

theorem Frame.trans {a b c : State} (h1 : Frame a b) (h2 : Frame b c) : Frame a c := by
  intro r n h
  obtain ⟨n1, hn1, e1⟩ := h1 r n h
  obtain ⟨n2, hn2, e2⟩ := h2 r n1 hn1
  exact ⟨n2, hn2, Node.evolves_trans e1 e2⟩

theorem Frame.keeps {s s' : State} (h : Frame s s') {r : Ref} {n : Node}
    (hr : s.heap[r]? = some n) (hn : ∀ f, n ≠ Node.field f) : s'.heap[r]? = some n := by
  obtain ⟨n', h1, h2⟩ := h r n hr
  rw [h1, Node.evolves_of_not_field h2 hn]

theorem Frame.keeps_field {s s' : State} (h : Frame s s') {r : Ref} {f : Field}
    (hr : s.heap[r]? = some (Node.field f)) :
    ∃ g, s'.heap[r]? = some (Node.field g) ∧ g.Comment = f.Comment ∧ g.Tag = f.Tag ∧
      (g.Name = f.Name ∨ (tagAlias f.Tag ≠ [] ∧ g.Name = tagAlias f.Tag)) ∧
      (g.Typ = f.Typ ∨ tagOverride f.Tag ≠ none) := by
  obtain ⟨n', h1, h2⟩ := h r _ hr
  obtain ⟨g, rfl, hg⟩ := Node.evolves_field h2
  exact ⟨g, h1, hg⟩

/-- A step that only touches the log keeps the frame. -/
theorem Frame.of_heap_eq {s s' : State} (h : s'.heap = s.heap) : Frame s s' := by
  intro r n hr
  exact ⟨n, by rw [h]; exact hr, Node.evolves_refl n⟩

/-- Appending a node and rewriting a `Field` cell as `Node.evolves` allows. -/
theorem Frame.append_set {s : State} {t : Ref} {f g : Field} (extra : List Node)
    (lg : List LogEntry) (ht : s.heap[t]? = some (Node.field f))
    (hev : Node.evolves (Node.field f) (Node.field g)) :
    Frame s ⟨(s.heap ++ extra).set t (Node.field g), lg⟩ := by
  intro r n h
  have hr : r < s.heap.length := (List.getElem?_eq_some.mp h).1
  by_cases hrt : t = r
  · subst hrt
    refine ⟨Node.field g, ?_, ?_⟩
    · have hlen : t < (s.heap ++ extra).length := by
        rw [List.length_append]
        exact Nat.lt_of_lt_of_le hr (Nat.le_add_right _ _)
      exact List.getElem?_set_self hlen
    · rw [ht] at h
      cases h
      exact hev
  · refine ⟨n, ?_, Node.evolves_refl n⟩
    simp only [List.getElem?_set_ne hrt]
    rw [List.getElem?_append_left hr]
    exact h

theorem Frame.set_field {s : State} {t : Ref} {f g : Field}
    (ht : s.heap[t]? = some (Node.field f)) (hev : Node.evolves (Node.field f) (Node.field g)) :
    Frame s { s with heap := s.heap.set t (Node.field g) } := by
  have := Frame.append_set [] s.log ht hev
  simpa using this

theorem Frame.bind_step {α β : Type} {m : M α} {f : α → M β} {s : State} (hm : Frame s (m s).st)
    (hf : ∀ a, (m s).res = Res.ok a → Frame (m s).st (f a (m s).st).st) :
    Frame s (M.bind m f s).st := by
  rw [M.bind_res]
  cases hr : (m s).res with
  | ok a => exact Frame.trans hm (hf a hr)
  | err e => exact hm
  | panic => exact hm
  | outOfFuel => exact hm

theorem Framed.pure {α : Type} (a : α) : Framed (M.pure a) := fun s => Frame.refl s

theorem Framed.bind {α β : Type} {m : M α} {f : α → M β} (hm : Framed m)
    (hf : ∀ a, Framed (f a)) : Framed (M.bind m f) :=
  fun s => Frame.bind_step (hm s) (fun a _ => hf a _)

theorem Framed.fail {α : Type} (e : Error) : Framed (fail e : M α) := fun s => Frame.refl s

theorem Framed.panic {α : Type} : Framed (panic : M α) := fun s => Frame.refl s

theorem Framed.outOfFuel {α : Type} : Framed (outOfFuel : M α) := fun s => Frame.refl s

theorem Framed.liftExcept {α : Type} (x : Except Error α) : Framed (liftExcept x) := by
  cases x
  · exact Framed.fail _
  · exact Framed.pure _

theorem Framed.ignoreErr {m : M Unit} (hm : Framed m) : Framed (ignoreErr m) := by
  intro s
  have h := hm s
  unfold template.ignoreErr
  rcases hms : m s with ⟨s1, o1, r⟩
  rw [hms] at h
  cases r <;> exact h

theorem Framed.alloc (n : Node) : Framed (alloc n) := by
  intro s r x h
  refine ⟨x, ?_, Node.evolves_refl x⟩
  have hr : r < s.heap.length := (List.getElem?_eq_some.mp h).1
  simp only [template.alloc]
  rw [List.getElem?_append_left hr]
  exact h

theorem Framed.derefField (t : Ref) : Framed (derefField t) := by
  intro s
  rw [derefField_st]
  exact Frame.refl s

theorem Framed.derefMap (t : Ref) : Framed (derefMap t) := by
  intro s
  rw [derefMap_st]
  exact Frame.refl s

theorem Framed.derefArray (t : Ref) : Framed (derefArray t) := by
  intro s
  rw [derefArray_st]
  exact Frame.refl s

theorem Framed.derefStruct (t : Ref) : Framed (derefStruct t) := by
  intro s
  rw [derefStruct_st]
  exact Frame.refl s

theorem Framed.derefPackageType (t : Ref) : Framed (derefPackageType t) := by
  intro s
  rw [derefPackageType_st]
  exact Frame.refl s

theorem Framed.logError (e : LogEntry) : Framed (logError e) :=
  fun _ => Frame.of_heap_eq rfl

theorem Framed.run (tmpl : Tmpl) (data : Data) : Framed (tmpl.run data) := by
  intro s
  rw [Tmpl.run_st]
  exact Frame.refl s

theorem Framed.Raw (E : Env) (raw : Str) : Framed (Raw E raw) := by
  unfold template.Raw
  simp only [bind_eq]
  exact Framed.bind (Framed.liftExcept _) (fun _ => Framed.run _ _)

theorem Framed.Basic_Template (E : Env) (lang : Language) (t : Ref) :
    Framed (Basic.Template E lang t) := by
  unfold Basic.Template
  simp only [bind_eq]
  exact Framed.bind (Framed.liftExcept _) (fun _ => Framed.run _ _)

theorem Framed.PackageType_Template {dyn : Templater → M Unit} (hd : ∀ x, Framed (dyn x))
    (E : Env) (lang : Language) (t : Ref) : Framed (PackageType.Template dyn E lang t) := by
  unfold PackageType.Template
  simp only [bind_eq]
  refine Framed.bind (Framed.liftExcept _) (fun _ => ?_)
  refine Framed.bind (Framed.run _ _) (fun _ => ?_)
  refine Framed.bind (Framed.derefPackageType _) (fun p => ?_)
  split
  · exact Framed.bind (Framed.logError _) (fun _ => Framed.fail _)
  · exact hd _

theorem Framed.Map_Template {dyn : Templater → M Unit} (hd : ∀ x, Framed (dyn x))
    (E : Env) (lang : Language) (t : Ref) : Framed (Map.Template dyn E lang t) := by
  unfold Map.Template
  simp only [bind_eq]
  refine Framed.bind (Framed.liftExcept _) (fun _ => ?_)
  refine Framed.bind (Framed.run _ _) (fun _ => ?_)
  refine Framed.bind (Framed.derefMap _) (fun _ => ?_)
  refine Framed.bind (hd _) (fun _ => ?_)
  refine Framed.bind (Framed.liftExcept _) (fun _ => ?_)
  refine Framed.bind (Framed.run _ _) (fun _ => ?_)
  refine Framed.bind (Framed.derefMap _) (fun _ => ?_)
  refine Framed.bind (hd _) (fun _ => ?_)
  exact Framed.bind (Framed.liftExcept _) (fun _ => Framed.run _ _)

theorem Framed.Array_Template {dyn : Templater → M Unit} (hd : ∀ x, Framed (dyn x))
    (E : Env) (lang : Language) (t : Ref) : Framed (Array.Template dyn E lang t) := by
  unfold Array.Template
  simp only [bind_eq]
  refine Framed.bind (Framed.liftExcept _) (fun _ => ?_)
  refine Framed.bind (Framed.run _ _) (fun _ => ?_)
  refine Framed.bind (Framed.derefArray _) (fun _ => ?_)
  refine Framed.bind (hd _) (fun _ => ?_)
  exact Framed.bind (Framed.liftExcept _) (fun _ => Framed.run _ _)

/-- The renaming step of `Field.Template` keeps the frame. -/
theorem Frame.rename_step {s : State} {t : Ref} {f : Field}
    (ht : s.heap[t]? = some (Node.field f)) :
    Frame s ((if (strings.Split (getTag "json".toList f.Tag) ',').headD [] ≠ [] then
        setName t ((strings.Split (getTag "json".toList f.Tag) ',').headD [])
      else M.pure ()) s).st := by
  split
  · next h =>
    rw [setName_eq _ ht]
    exact Frame.set_field ht ⟨rfl, rfl, Or.inr ⟨h, rfl⟩, Or.inl rfl⟩
  · exact Frame.refl s

theorem tagOverride_two {tag o0 o1 : Str}
    (h : strings.Split (getTag "tw".toList tag) ',' = [o0, o1]) :
    tagOverride tag = some { Typ := o0, Pointer := (strconv.ParseBool o1).1 } := by
  unfold tagOverride
  rw [h]

theorem tagOverride_one {tag o0 : Str}
    (h : strings.Split (getTag "tw".toList tag) ',' = [o0]) (hne : o0 ≠ []) :
    tagOverride tag = some { Typ := o0, Pointer := false } := by
  unfold tagOverride
  rw [h]
  simp [hne]

/-- The override step of `Field.Template` keeps the frame. -/
theorem Frame.override_step {s : State} {t : Ref} {f : Field} (ov : List Str)
    (hov : strings.Split (getTag "tw".toList f.Tag) ',' = ov)
    (ht : s.heap[t]? = some (Node.field f)) :
    Frame s ((match ov with
      | [o0, o1] =>
        M.bind
          (match (strconv.ParseBool o1).2 with
          | some err => logError ⟨err, [], "error parsing bool for type ".toList ++ f.Name⟩
          | none => M.pure ())
          (fun _ => M.bind (alloc (Node.basic { Typ := o0, Pointer := (strconv.ParseBool o1).1 }))
            (fun b => setType t (some b)))
      | [o0] =>
        if o0 ≠ [] then
          M.bind (alloc (Node.basic { Typ := o0, Pointer := false })) (fun b => setType t (some b))
        else M.pure ()
      | _ => M.pure ()) s).st := by
  have hlt : t < s.heap.length := (List.getElem?_eq_some.mp ht).1
  have hap : ∀ (s0 : State) (n : Node), s0.heap = s.heap → tagOverride f.Tag ≠ none →
      Frame s ((M.bind (alloc n) (fun b => setType t (some b))) s0).st := by
    intro s0 n h0 hne
    have h1 : (s0.heap ++ [n])[t]? = some (Node.field f) := by
      rw [h0, List.getElem?_append_left hlt]; exact ht
    simp only [M.bind, alloc, setType, h1]
    rw [h0]
    exact Frame.append_set _ _ ht ⟨rfl, rfl, Or.inl rfl, Or.inr hne⟩
  rcases ov with _ | ⟨o0, _ | ⟨o1, _ | ⟨o2, rest⟩⟩⟩
  · exact Frame.refl s
  · dsimp only
    split
    · next hne =>
      exact hap s _ rfl (by rw [tagOverride_one hov hne]; simp)
    · exact Frame.refl s
  · have hne : tagOverride f.Tag ≠ none := by rw [tagOverride_two hov]; simp
    dsimp only
    rw [M.bind_res]
    cases hp : (strconv.ParseBool o1).2 with
    | none => exact hap s _ rfl hne
    | some err => exact hap _ _ rfl hne
  · exact Frame.refl s

/-- The part of `Field.Template` after the renaming keeps the frame, whatever
the override step `B` is, as long as that step keeps it. -/
theorem field_tail_Framed {dyn : Templater → M Unit} (hd : ∀ x, Framed (dyn x))
    (x : Except Error Tmpl) (t : Ref) (B : Field → M Unit)
    (hB : ∀ (g : Field) (s : State), s.heap[t]? = some (Node.field g) → Frame s (B g s).st) :
    Framed (M.bind (liftExcept x) (fun tmpl =>
      M.bind (tmpl.run (Data.ptr t)) (fun _ =>
        M.bind (derefField t) (fun g =>
          M.bind (B g) (fun _ =>
            M.bind (derefField t) (fun f => dyn f.Typ)))))) := by
  refine Framed.bind (Framed.liftExcept _) (fun _ => ?_)
  refine Framed.bind (Framed.run _ _) (fun _ => ?_)
  intro s1
  refine Frame.bind_step (Framed.derefField _ _) (fun g hg => ?_)
  rw [derefField_st]
  refine Frame.bind_step (hB g s1 (derefField_res hg)) (fun _ _ => ?_)
  exact Framed.bind (Framed.derefField _) (fun _ => hd _) _

theorem Framed.Field_Template {dyn : Templater → M Unit} (hd : ∀ x, Framed (dyn x))
    (E : Env) (lang : Language) (t : Ref) : Framed (Field.Template dyn E lang t) := by
  intro s
  unfold Field.Template
  simp only [bind_eq]
  refine Frame.bind_step (Framed.derefField _ _) (fun f hf => ?_)
  rw [derefField_st]
  refine Frame.bind_step (Frame.rename_step (derefField_res hf)) (fun _ _ => ?_)
  exact field_tail_Framed hd _ t _ (fun g s hg => Frame.override_step _ rfl hg) _

theorem Framed.Struct_rangeFields {dyn : Templater → M Unit} (hd : ∀ x, Framed (dyn x))
    (E : Env) (lang : Language) (t : Ref) (fs : List Field) :
    ∀ i, Framed (Struct.rangeFields dyn E lang t i fs) := by
  induction fs with
  | nil =>
    intro i
    unfold Struct.rangeFields
    exact Framed.pure _
  | cons v rest ih =>
    intro i
    unfold Struct.rangeFields
    simp only [bind_eq]
    refine Framed.bind (Framed.alloc _) (fun _ => ?_)
    refine Framed.bind (Framed.Field_Template hd _ _ _) (fun _ => ?_)
    refine Framed.bind (Framed.derefStruct _) (fun _ => ?_)
    refine Framed.bind ?_ (fun _ => ih _)
    split
    · refine Framed.bind (Framed.liftExcept _) (fun _ => ?_)
      refine Framed.bind (Framed.run _ _) (fun _ => ?_)
      refine Framed.bind (Framed.liftExcept _) (fun _ => ?_)
      exact Framed.bind (Framed.derefField _) (fun _ => Framed.run _ _)
    · refine Framed.bind (Framed.liftExcept _) (fun _ => ?_)
      refine Framed.bind (Framed.derefField _) (fun _ => ?_)
      exact Framed.bind (Framed.run _ _) (fun _ => Framed.ignoreErr (Framed.Raw _ _))

theorem Framed.Struct_Template {dyn : Templater → M Unit} (hd : ∀ x, Framed (dyn x))
    (E : Env) (lang : Language) (t : Ref) : Framed (Struct.Template dyn E lang t) := by
  unfold Struct.Template
  simp only [bind_eq]
  refine Framed.bind (Framed.liftExcept _) (fun _ => ?_)
  refine Framed.bind (Framed.run _ _) (fun _ => ?_)
  refine Framed.bind (Framed.derefStruct _) (fun _ => ?_)
  refine Framed.bind (Framed.Struct_rangeFields hd _ _ _ _ _) (fun _ => ?_)
  exact Framed.bind (Framed.liftExcept _) (fun _ => Framed.run _ _)

/-- A render through the interface keeps every heap cell, changing at most the
`Name` and the `Type` of `Field` cells, and those only as their tags ask. -/
theorem Framed.Templater_Template (E : Env) (lang : Language) :
    ∀ (n : Nat) (x : Templater), Framed (Templater.Template E lang n x) := by
  intro n
  induction n with
  | zero =>
    intro x
    cases x
    · exact Framed.panic
    · exact Framed.outOfFuel
  | succ n ih =>
    intro x
    cases x with
    | none => exact Framed.panic
    | some r =>
      intro s
      unfold Templater.Template
      split
      · exact Frame.refl s
      · exact Framed.Basic_Template E lang r s
      · exact Framed.Map_Template ih E lang r s
      · exact Framed.Array_Template ih E lang r s
      · exact Framed.Struct_Template ih E lang r s
      · exact Framed.Field_Template ih E lang r s
      · exact Framed.PackageType_Template ih E lang r s

/-! ## The tag parser -/

theorem strings.indexFrom_first (pat : Str) :
    ∀ (p r : Str) (k : Nat),
      (∀ q u : Str, p ++ pat ++ r = q ++ pat ++ u → p.length ≤ q.length) →
      strings.indexFrom pat (p ++ pat ++ r) k = ((k + p.length : Nat) : Int) := by
  intro p
  induction p with
  | nil =>
    intro r k _
    cases h : pat ++ r with
    | nil =>
      have hp : pat = [] := (List.append_eq_nil.mp h).1
      have hr : r = [] := (List.append_eq_nil.mp h).2
      subst hp hr
      simp [strings.indexFrom]
    | cons c cs =>
      have hpre : pat.isPrefixOf (c :: cs) = true := by
        rw [← h, List.isPrefixOf_iff_prefix]
        exact List.prefix_append pat r
      simp [h, strings.indexFrom, hpre]
  | cons c p ih =>
    intro r k hfirst
    have hnot : pat.isPrefixOf (c :: (p ++ pat ++ r)) = false := by
      cases hb : pat.isPrefixOf (c :: (p ++ pat ++ r)) with
      | false => rfl
      | true =>
        obtain ⟨u, hu⟩ := List.isPrefixOf_iff_prefix.mp hb
        have := hfirst [] u (by simpa using hu.symm)
        simp at this
    have hrec := ih r (k + 1) (by
      intro q u hq
      have := hfirst (c :: q) u (by simp [hq] )
      simpa using this)
    have e : (c :: p) ++ pat ++ r = c :: (p ++ pat ++ r) := rfl
    rw [e, strings.indexFrom, hnot, if_neg (by simp), hrec]
    simp only [List.length_cons]
    congr 1
    omega

theorem strings.indexFrom_none (pat : Str) :
    ∀ (s : Str) (k : Nat), (¬ ∃ q u : Str, s = q ++ pat ++ u) →
      strings.indexFrom pat s k = -1 := by
  intro s
  induction s with
  | nil =>
    intro k h
    have hp : pat ≠ [] := by
      intro hp
      exact h ⟨[], [], by simp [hp]⟩
    simp [strings.indexFrom, hp]
  | cons c cs ih =>
    intro k h
    have hnot : pat.isPrefixOf (c :: cs) = false := by
      cases hb : pat.isPrefixOf (c :: cs) with
      | false => rfl
      | true =>
        obtain ⟨u, hu⟩ := List.isPrefixOf_iff_prefix.mp hb
        exact absurd ⟨[], u, by simpa using hu.symm⟩ h
    simp only [strings.indexFrom, hnot, Bool.false_eq_true, if_false]
    apply ih
    rintro ⟨q, u, hq⟩
    exact h ⟨c :: q, u, by simp [hq]⟩

theorem strings.indexFrom_char {c : Char} :
    ∀ (v r : Str) (k : Nat), c ∉ v →
      strings.indexFrom [c] (v ++ c :: r) k = ((k + v.length : Nat) : Int) := by
  intro v
  induction v with
  | nil =>
    intro r k _
    simp [strings.indexFrom, List.isPrefixOf]
  | cons d v ih =>
    intro r k h
    have hd : c ≠ d := fun e => h (by simp [e])
    have hv : c ∉ v := fun e => h (by simp [e])
    have hnot : [c].isPrefixOf (d :: (v ++ c :: r)) = false := by
      simp [List.isPrefixOf, hd]
    have e : (d :: v) ++ c :: r = d :: (v ++ c :: r) := rfl
    rw [e, strings.indexFrom, hnot, if_neg (by simp), ih r (k + 1) hv]
    simp only [List.length_cons]
    congr 1
    omega

theorem strings.indexFrom_char_none {c : Char} :
    ∀ (v : Str) (k : Nat), c ∉ v → strings.indexFrom [c] v k = -1 := by
  intro v
  induction v with
  | nil =>
    intro k _
    simp [strings.indexFrom]
  | cons d v ih =>
    intro k h
    have hd : c ≠ d := fun e => h (by simp [e])
    have hv : c ∉ v := fun e => h (by simp [e])
    have hnot : [c].isPrefixOf (d :: v) = false := by
      simp [List.isPrefixOf, hd]
    simp only [strings.indexFrom, hnot, Bool.false_eq_true, if_false]
    exact ih (k + 1) hv

/-- The value found after the first occurrence of `tag:"`: the text up to the
next double quote, or nothing when no double quote follows. -/
theorem getTag_at_first (k p w : Str)
    (hfirst : ∀ q u : Str, p ++ (k ++ [':', '"']) ++ w = q ++ (k ++ [':', '"']) ++ u →
      p.length ≤ q.length) :
    getTag k (p ++ (k ++ [':', '"']) ++ w)
      = if strings.Index w ['"'] = -1 then [] else w.take (strings.Index w ['"']).toNat := by
  have hloc : strings.Index (p ++ (k ++ [':', '"']) ++ w) (k ++ [':', '"'])
      = ((0 + p.length : Nat) : Int) := strings.indexFrom_first _ p w 0 hfirst
  have hdrop : (p ++ (k ++ [':', '"']) ++ w).drop
      (((0 + p.length : Nat) : Int) + (k.length : Int) + 2).toNat = w := by
    have : (((0 + p.length : Nat) : Int) + (k.length : Int) + 2).toNat
        = (p ++ (k ++ [':', '"'])).length := by
      simp only [List.length_append, List.length_cons, List.length_nil]
      omega
    rw [this, List.drop_left]
  have hpos : ((0 + p.length : Nat) : Int) > -1 := by omega
  unfold getTag
  simp only [hloc, hpos, if_true, hdrop]

/-- C8: `getTag(k, s)` is the text strictly between the first occurrence of
`k:"` in `s` and the next double quote after it; it is empty when `k:"` does
not occur in `s`, and when no double quote follows the first occurrence.  The
first occurrence is the one that counts when the key is repeated. -/
theorem getTag_spec (k s : Str) :
    ((¬ ∃ q u : Str, s = q ++ (k ++ [':', '"']) ++ u) → getTag k s = []) ∧
    (∀ p v r : Str, s = p ++ (k ++ [':', '"']) ++ (v ++ '"' :: r) →
      (∀ q u : Str, s = q ++ (k ++ [':', '"']) ++ u → p.length ≤ q.length) →
      '"' ∉ v → getTag k s = v) ∧
    (∀ p v : Str, s = p ++ (k ++ [':', '"']) ++ v →
      (∀ q u : Str, s = q ++ (k ++ [':', '"']) ++ u → p.length ≤ q.length) →
      '"' ∉ v → getTag k s = []) := by
  refine ⟨?_, ?_, ?_⟩
  · intro h
    have hloc : strings.Index s (k ++ [':', '"']) = -1 := strings.indexFrom_none _ s 0 h
    unfold getTag
    simp [hloc]
  · intro p v r hs hfirst hv
    subst hs
    rw [getTag_at_first k p _ hfirst]
    have hi : strings.Index (v ++ '"' :: r) ['"'] = ((0 + v.length : Nat) : Int) :=
      strings.indexFrom_char v r 0 hv
    have hne : ((0 + v.length : Nat) : Int) ≠ -1 := by omega
    rw [hi, if_neg hne]
    simp
  · intro p v hs hfirst hv
    subst hs
    rw [getTag_at_first k p _ hfirst]
    have hi : strings.Index v ['"'] = -1 := strings.indexFrom_char_none v 0 hv
    rw [hi, if_pos rfl]

/-- C8, worked examples: the three calls of the specification, a repeated key
(the first value wins) and a value whose closing quote is missing. -/
theorem getTag_spec_witness :
    getTag "json".toList "json:\"name,omitempty\" tw:\"string\"".toList = "name,omitempty".toList ∧
    getTag "tw".toList "json:\"name,omitempty\" tw:\"string\"".toList = "string".toList ∧
    getTag "xyz".toList "json:\"name,omitempty\" tw:\"string\"".toList = [] ∧
    getTag "tw".toList "tw:\"a\" tw:\"b\"".toList = "a".toList ∧
    getTag "tw".toList "tw:\"abc".toList = [] :=
  ⟨(getTag_spec "json".toList "json:\"name,omitempty\" tw:\"string\"".toList).2.1
      [] "name,omitempty".toList " tw:\"string\"".toList rfl
      (fun q _ _ => Nat.zero_le q.length) (by decide),
   by decide, by decide, by decide, by decide⟩

/-- A tag in which `key:"` occurs nowhere has no value for `key`. -/
theorem getTag_of_no_occurrence {k s : Str}
    (h : ¬ ∃ q u : Str, s = q ++ (k ++ [':', '"']) ++ u) : getTag k s = [] := by
  have hloc : strings.Index s (k ++ [':', '"']) = -1 := strings.indexFrom_none _ s 0 h
  unfold getTag
  simp [hloc]

/-! ## Map, Array and PackageType -/

/-- C2: when every step succeeds, `Map.Template` writes the output of
`map_key`, the render of `Key`, the output of `map_value`, the render of
`Value` and the output of `map_close`, in this order and nothing else. -/
theorem Map_Template_output (E : Env) (lang : Language) (n : Nat) (t : Ref) (m : Map)
    (s s1 s2 : State) (tk tv tc : Tmpl) (txtK txtV txtC outK outV : Str)
    (ht : s.heap[t]? = some (Node.map m))
    (hk : newTemplate E "map_key.tmpl" (lang ++ "/map_key.tmpl") = Except.ok tk)
    (hke : tk.Execute s.heap (Data.ptr t) = (txtK, none))
    (hK : Templater.Template E lang n m.Key s = ⟨s1, outK, Res.ok ()⟩)
    (hv : newTemplate E "map_value.tmpl" (lang ++ "/map_value.tmpl") = Except.ok tv)
    (hve : tv.Execute s1.heap (Data.ptr t) = (txtV, none))
    (hV : Templater.Template E lang n m.Value s1 = ⟨s2, outV, Res.ok ()⟩)
    (hc : newTemplate E "map_close.tmpl" (lang ++ "/map_close.tmpl") = Except.ok tc)
    (hce : tc.Execute s2.heap (Data.ptr t) = (txtC, none)) :
    Map.Template (Templater.Template E lang n) E lang t s
      = ⟨s2, txtK ++ outK ++ txtV ++ outV ++ txtC, Res.ok ()⟩ := by
  have hs1 : s1.heap[t]? = some (Node.map m) := by
    have := Framed.Templater_Template E lang n m.Key s
    rw [hK] at this
    exact this.keeps ht (by simp)
  simp only [Map.Template, bind_eq, M.bind, hk, liftExcept_ok,
    Tmpl.run_ok hke, derefMap_eq ht, hK, hv, Tmpl.run_ok hve, derefMap_eq hs1, hV, hc,
    Tmpl.run_ok hce]
  simp

/-- C2, worked example: `Map{Key: Basic{"string"}, Value: Basic{"int"}}` with
`map_key = "map["`, `map_value = "]"`, `map_close = ""` and a `basic` fragment
writing the `Type` renders as `map[string]int`. -/
theorem Map_Template_output_witness :
    Map.Template (Templater.Template demoEnv "go" 1) demoEnv "go" 2 demoMapState
      = ⟨demoMapState, "map[string]int".toList, Res.ok ()⟩ :=
  Map_Template_output demoEnv "go" 1 2 ⟨some 0, some 1⟩ demoMapState demoMapState demoMapState
    (demoText "map[") (demoText "]") (demoText "") "map[".toList "]".toList []
    "string".toList "int".toList rfl rfl rfl rfl rfl rfl rfl rfl rfl

/-- C9: when `map_key` and the render of `Key` succeed and `map_value` cannot
be resolved, `Map.Template` returns that error; the sink holds the output of
`map_key` and of `Key` and nothing of `Value` or `map_close`, and the state is
the one `Key` left. -/
theorem Map_Template_map_value_unresolved (E : Env) (lang : Language) (n : Nat) (t : Ref)
    (m : Map) (s s1 : State) (tk : Tmpl) (txtK outK : Str) (e : Error)
    (ht : s.heap[t]? = some (Node.map m))
    (hk : newTemplate E "map_key.tmpl" (lang ++ "/map_key.tmpl") = Except.ok tk)
    (hke : tk.Execute s.heap (Data.ptr t) = (txtK, none))
    (hK : Templater.Template E lang n m.Key s = ⟨s1, outK, Res.ok ()⟩)
    (hv : newTemplate E "map_value.tmpl" (lang ++ "/map_value.tmpl") = Except.error e) :
    Map.Template (Templater.Template E lang n) E lang t s = ⟨s1, txtK ++ outK, Res.err e⟩ := by
  simp only [Map.Template, bind_eq, M.bind, hk, liftExcept_ok, Tmpl.run_ok hke,
    derefMap_eq ht, hK, hv, liftExcept_error]
  simp

/-- C9, worked example: without `map_value.tmpl`, the render of
`Map{Key: Basic{"string"}, Value: Basic{"int"}}` stops with the resolver's
error after `map[string`. -/
theorem Map_Template_map_value_unresolved_witness :
    Map.Template (Templater.Template (demoEnvWithout "map_value.tmpl") "go" 1)
        (demoEnvWithout "map_value.tmpl") "go" 2 demoMapState
      = ⟨demoMapState, "map[string".toList,
          Res.err (Error.tmpl "open: no such file or directory")⟩ :=
  Map_Template_map_value_unresolved (demoEnvWithout "map_value.tmpl") "go" 1 2
    ⟨some 0, some 1⟩ demoMapState demoMapState (demoText "map[") "map[".toList
    "string".toList _ rfl rfl rfl rfl rfl

/-- C10: `Array.Template` writes the output of `array_open`, then the render of
the element `Type`, then the output of `array_close`; when the render of the
element `Type` returns an error, that error is returned and nothing is written
after what the element wrote. -/
theorem Array_Template_output (E : Env) (lang : Language) (n : Nat) (t : Ref) (a : Array)
    (s : State) (topen : Tmpl) (txtO : Str)
    (ht : s.heap[t]? = some (Node.array a))
    (ho : newTemplate E "array_open.tmpl" (lang ++ "/array_open.tmpl") = Except.ok topen)
    (hoe : topen.Execute s.heap (Data.ptr t) = (txtO, none)) :
    (∀ (s1 : State) (outT txtC : Str) (tclose : Tmpl),
      Templater.Template E lang n a.Typ s = ⟨s1, outT, Res.ok ()⟩ →
      newTemplate E "array_close.tmpl" (lang ++ "/array_close.tmpl") = Except.ok tclose →
      tclose.Execute s1.heap (Data.ptr t) = (txtC, none) →
      Array.Template (Templater.Template E lang n) E lang t s
        = ⟨s1, txtO ++ outT ++ txtC, Res.ok ()⟩) ∧
    (∀ (s1 : State) (outT : Str) (e : Error),
      Templater.Template E lang n a.Typ s = ⟨s1, outT, Res.err e⟩ →
      Array.Template (Templater.Template E lang n) E lang t s
        = ⟨s1, txtO ++ outT, Res.err e⟩) := by
  constructor
  · intro s1 outT txtC tclose hT hc hce
    simp only [Array.Template, bind_eq, M.bind, ho, liftExcept_ok, Tmpl.run_ok hoe,
      derefArray_eq ht, hT, hc, Tmpl.run_ok hce]
    simp
  · intro s1 outT e hT
    simp only [Array.Template, bind_eq, M.bind, ho, liftExcept_ok, Tmpl.run_ok hoe,
      derefArray_eq ht, hT]
    simp

/-- C10, worked example: `Array{Type: Basic{"int"}}` renders as `[]int`, and
`Array{Type: Array{Type: Basic{"int"}}}` without `basic.tmpl` stops with the
resolver's error after `[][]`. -/
theorem Array_Template_output_witness :
    Array.Template (Templater.Template demoEnv "go" 1) demoEnv "go" 1 demoArrayState
      = ⟨demoArrayState, "[]int".toList, Res.ok ()⟩ ∧
    Array.Template (Templater.Template (demoEnvWithout "basic.tmpl") "go" 2)
        (demoEnvWithout "basic.tmpl") "go" 2 demoArrayState
      = ⟨demoArrayState, "[][]".toList,
          Res.err (Error.tmpl "open: no such file or directory")⟩ :=
  ⟨(Array_Template_output demoEnv "go" 1 1 ⟨some 0⟩ demoArrayState (demoText "[]") "[]".toList
      rfl rfl rfl).1 demoArrayState "int".toList [] (demoText "") rfl rfl rfl,
   (Array_Template_output (demoEnvWithout "basic.tmpl") "go" 2 2 ⟨some 1⟩ demoArrayState
      (demoText "[]") "[]".toList rfl rfl rfl).2 demoArrayState "[]".toList _ rfl⟩

/-- C6: after a successful `declaration` fragment, `PackageType.Template` with
a `nil` `Type` logs and returns `errNoType`, having written the output of the
fragment and nothing more; with a `Type` it writes the output of the fragment
followed by the render of that `Type`, and ends as that render ends. -/
theorem PackageType_Template_output (E : Env) (lang : Language) (n : Nat) (t : Ref)
    (p : PackageType) (s : State) (tdecl : Tmpl) (txtD : Str)
    (ht : s.heap[t]? = some (Node.packageType p))
    (hd : newTemplate E "declaration.tmpl" (lang ++ "/declaration.tmpl") = Except.ok tdecl)
    (hde : tdecl.Execute s.heap (Data.ptr t) = (txtD, none)) :
    (p.Typ = none →
      PackageType.Template (Templater.Template E lang n) E lang t s
        = ⟨{ s with log := s.log ++
              [⟨errNoType, [("name", p.Name)], "error while writing package type".toList⟩] },
            txtD, Res.err errNoType⟩) ∧
    (p.Typ ≠ none →
      PackageType.Template (Templater.Template E lang n) E lang t s
        = ⟨(Templater.Template E lang n p.Typ s).st,
            txtD ++ (Templater.Template E lang n p.Typ s).out,
            (Templater.Template E lang n p.Typ s).res⟩) := by
  constructor
  · intro hnil
    simp only [PackageType.Template, bind_eq, M.bind, hd, liftExcept_ok, Tmpl.run_ok hde,
      derefPackageType_eq ht, hnil, if_true, logError, fail]
    simp
  · intro hsome
    simp only [PackageType.Template, bind_eq, M.bind, hd, liftExcept_ok, Tmpl.run_ok hde,
      derefPackageType_eq ht, hsome, if_false]
    simp

/-- C6, worked example: `PackageType{Name: "T"}` without a `Type` returns
`errNoType` after writing `type T `, and `PackageType{Name: "U", Type:
Basic{"int"}}` renders as `type U int`. -/
theorem PackageType_Template_output_witness :
    PackageType.Template (Templater.Template demoEnv "go" 1) demoEnv "go" 0 demoPackageState
      = ⟨{ demoPackageState with log :=
            [⟨errNoType, [("name", "T".toList)], "error while writing package type".toList⟩] },
          "type T ".toList, Res.err errNoType⟩ ∧
    PackageType.Template (Templater.Template demoEnv "go" 1) demoEnv "go" 1 demoPackageState
      = ⟨demoPackageState, "type U int".toList, Res.ok ()⟩ :=
  ⟨(PackageType_Template_output demoEnv "go" 1 0 ⟨"T".toList, [], none, []⟩ demoPackageState
      demoDeclaration "type T ".toList rfl rfl rfl).1 rfl,
   (PackageType_Template_output demoEnv "go" 1 1 ⟨"U".toList, [], some 2, []⟩ demoPackageState
      demoDeclaration "type U ".toList rfl rfl rfl).2 (by decide)⟩

/-! ## Field -/

theorem List.set_same {α : Type} {l : List α} {i : Nat} {a : α} (h : l[i]? = some a) :
    l.set i a = l := by
  apply List.ext_getElem?
  intro j
  by_cases hij : i = j
  · subst hij
    have hlt : i < l.length := (List.getElem?_eq_some.mp h).1
    rw [List.getElem?_set_self hlt, h]
  · rw [List.getElem?_set_ne hij]

theorem strings.splitAux_headD (sep : Char) :
    ∀ (s cur : Str), (strings.splitAux sep s cur).headD []
      = cur.reverse ++ s.takeWhile (fun c => decide (c ≠ sep)) := by
  intro s
  induction s with
  | nil =>
    intro cur
    simp [strings.splitAux]
  | cons c cs ih =>
    intro cur
    by_cases h : c = sep
    · rw [strings.splitAux, if_pos h]
      simp [h]
    · rw [strings.splitAux, if_neg h, ih]
      simp [h]

/-- The alias of a tag is the text of its `json` value before the first comma. -/
theorem tagAlias_eq_takeWhile (tag : Str) :
    tagAlias tag = (getTag "json".toList tag).takeWhile (fun c => decide (c ≠ ',')) := by
  unfold tagAlias strings.Split
  rw [strings.splitAux_headD]
  rfl

theorem Outcome.eta {α : Type} (o : Outcome α) : (⟨o.st, o.out, o.res⟩ : Outcome α) = o := rfl

theorem Field.renamed_Tag (f : Field) : f.renamed.Tag = f.Tag := by
  unfold Field.renamed
  split <;> rfl

theorem Field.renamed_Typ (f : Field) : f.renamed.Typ = f.Typ := by
  unfold Field.renamed
  split <;> rfl

theorem Field.renamed_Comment (f : Field) : f.renamed.Comment = f.Comment := by
  unfold Field.renamed
  split <;> rfl

/-- The first step of `Field.Template`: the cell of the receiver holds the
renamed field, nothing is written, and the method goes on with `K`. -/
theorem rename_first_step {β : Type} (K : M β) {s : State} {t : Ref} {f : Field}
    (ht : s.heap[t]? = some (Node.field f)) :
    M.bind (derefField t) (fun f =>
      M.bind (if (strings.Split (getTag "json".toList f.Tag) ',').headD [] ≠ [] then
          setName t ((strings.Split (getTag "json".toList f.Tag) ',').headD [])
        else M.pure ()) (fun _ => K)) s
      = K { s with heap := s.heap.set t (Node.field f.renamed) } := by
  rw [M.bind_eq_of_eq (derefField_eq ht)]
  by_cases h : (strings.Split (getTag "json".toList f.Tag) ',').headD [] = []
  · have hr : f.renamed = f := by
      unfold Field.renamed tagAlias
      rw [if_neg (by simpa using h)]
    rw [hr, List.set_same ht]
    simp only [ne_eq, h, not_true_eq_false, if_false, M.bind, M.pure, List.nil_append]
  · have hr : f.renamed = { f with Name := (strings.Split (getTag "json".toList f.Tag) ',').headD [] } := by
      unfold Field.renamed tagAlias
      rw [if_pos h]
    rw [hr]
    simp only [ne_eq, h, not_false_eq_true, if_true, M.bind, setName_eq _ ht, List.nil_append]

/-- The method `Field.Template` is the renaming of the receiver's cell followed by a
computation that keeps the frame and whose output starts with the text of the
`field_name` fragment. -/
theorem Field_Template_split {dyn : Templater → M Unit} (hd : ∀ x, Framed (dyn x))
    (E : Env) (lang : Language) (t : Ref) (f : Field) (s : State)
    (ht : s.heap[t]? = some (Node.field f)) :
    ∃ K : M Unit, Framed K ∧
      Field.Template dyn E lang t s = K { s with heap := s.heap.set t (Node.field f.renamed) } ∧
      ∀ tn, newTemplate E "field_name.tmpl" (lang ++ "/field_name.tmpl") = Except.ok tn →
        ∀ s', ∃ rest, (K s').out = (tn.Execute s'.heap (Data.ptr t)).1 ++ rest := by
  refine ⟨_, field_tail_Framed hd (newTemplate E "field_name.tmpl" (lang ++ "/field_name.tmpl")) t _
    (fun g s hg => Frame.override_step _ rfl hg), ?_, ?_⟩
  · unfold Field.Template
    simp only [bind_eq]
    exact rename_first_step _ ht
  · intro tn hn s'
    rw [hn, M.bind_eq_of_eq (liftExcept_ok tn s'), M.bind_res]
    rcases hx : tn.Execute s'.heap (Data.ptr t) with ⟨txt, _ | e⟩
    · rw [Tmpl.run_ok hx]
      exact ⟨_, rfl⟩
    · rw [Tmpl.run_err hx]
      exact ⟨[], (List.append_nil _).symm⟩

/-- C3, as amended: the alias of a `Field` is what `getTag("json", Tag)` gives
before its first comma, `getTag` looking for `json:"` as a plain substring of
the tag.  When the alias is not empty the `field_name` fragment is executed on
the cell with `Name` set to the alias, and the cell keeps that `Name` after the
render.  When the alias is empty, as it is when `json:"` occurs nowhere in the
tag, the fragment is executed on the unchanged cell and the `Name` stays. -/
theorem Field_Template_display_name (E : Env) (lang : Language) (n : Nat) (t : Ref) (f : Field)
    (s : State) (ht : s.heap[t]? = some (Node.field f)) :
    (tagAlias f.Tag ≠ [] →
      (∀ tn, newTemplate E "field_name.tmpl" (lang ++ "/field_name.tmpl") = Except.ok tn →
        ∃ rest, (Field.Template (Templater.Template E lang n) E lang t s).out
          = (tn.Execute (s.heap.set t (Node.field { f with Name := tagAlias f.Tag }))
              (Data.ptr t)).1 ++ rest) ∧
      ∃ g, (Field.Template (Templater.Template E lang n) E lang t s).st.heap[t]?
          = some (Node.field g) ∧ g.Name = tagAlias f.Tag) ∧
    (tagAlias f.Tag = [] →
      (∀ tn, newTemplate E "field_name.tmpl" (lang ++ "/field_name.tmpl") = Except.ok tn →
        ∃ rest, (Field.Template (Templater.Template E lang n) E lang t s).out
          = (tn.Execute s.heap (Data.ptr t)).1 ++ rest) ∧
      ∃ g, (Field.Template (Templater.Template E lang n) E lang t s).st.heap[t]?
          = some (Node.field g) ∧ g.Name = f.Name) ∧
    tagAlias f.Tag = (getTag "json".toList f.Tag).takeWhile (fun c => decide (c ≠ ',')) ∧
    ((¬ ∃ q u : Str, f.Tag = q ++ ("json".toList ++ [':', '"']) ++ u) →
      tagAlias f.Tag = []) := by
  obtain ⟨K, hK, hrun, hout⟩ :=
    Field_Template_split (Framed.Templater_Template E lang n) E lang t f s ht
  have hlt : t < s.heap.length := (List.getElem?_eq_some.mp ht).1
  have hs1 : (s.heap.set t (Node.field f.renamed))[t]? = some (Node.field f.renamed) :=
    List.getElem?_set_self hlt
  obtain ⟨g, hg, _, _, hname, _⟩ :=
    (hK { s with heap := s.heap.set t (Node.field f.renamed) }).keeps_field hs1
  rw [← hrun] at hg
  rw [Field.renamed_Tag] at hname
  refine ⟨?_, ?_, tagAlias_eq_takeWhile f.Tag, ?_⟩
  rotate_left 2
  · intro hno
    rw [tagAlias_eq_takeWhile, getTag_of_no_occurrence hno]
    rfl
  · intro hal
    have hr : f.renamed = { f with Name := tagAlias f.Tag } := by
      unfold Field.renamed
      rw [if_pos hal]
    refine ⟨fun tn hn => ?_, g, hg, ?_⟩
    · obtain ⟨rest, hrest⟩ := hout tn hn { s with heap := s.heap.set t (Node.field f.renamed) }
      rw [hrun, hrest, hr]
      exact ⟨rest, rfl⟩
    · rw [hr] at hname
      rcases hname with h | ⟨_, h⟩ <;> exact h
  · intro hal
    have hr : f.renamed = f := by
      unfold Field.renamed
      rw [if_neg (by simpa using hal)]
    refine ⟨fun tn hn => ?_, g, hg, ?_⟩
    · obtain ⟨rest, hrest⟩ := hout tn hn { s with heap := s.heap.set t (Node.field f.renamed) }
      rw [hrun, hrest, hr, List.set_same ht]
      exact ⟨rest, rfl⟩
    · rw [hr] at hname
      rcases hname with h | ⟨h, _⟩
      · exact h
      · exact absurd hal h

/-- C3, worked example: the field `Orig` tagged `json:"alias,omitempty"` is
rendered as `alias:string` and is named `alias` afterwards. -/
theorem Field_Template_display_name_witness :
    (Field.Template (Templater.Template demoEnv "go" 1) demoEnv "go" 1 demoFieldState).out
        = "alias:string".toList ∧
    ∃ g, (Field.Template (Templater.Template demoEnv "go" 1) demoEnv "go" 1
        demoFieldState).st.heap[1]? = some (Node.field g) ∧ g.Name = "alias".toList :=
  ⟨by decide,
   ((Field_Template_display_name demoEnv "go" 1 1
      ⟨"Orig".toList, some 0, [], "json:\"alias,omitempty\"".toList⟩ demoFieldState rfl).1
      (by decide)).2⟩

/-- C3, counterexample to the claim as first stated: the tag `xjson:"foo"` has
the single key `xjson`, so the key `json` is absent, and still the field `Orig`
is rendered as `foo:string` and is named `foo` afterwards. -/
theorem Field_Template_display_name_counterexample :
    demoKeyState.heap[1]?
        = some (Node.field ⟨"Orig".toList, some 0, [],
            tagOfPairs [("xjson".toList, "foo".toList)]⟩) ∧
    "json".toList ∉ [("xjson".toList, "foo".toList)].map Prod.fst ∧
    Field.Template (Templater.Template demoEnv "go" 1) demoEnv "go" 1 demoKeyState
        = ⟨⟨demoKeyState.heap.set 1 (Node.field ⟨"foo".toList, some 0, [],
              tagOfPairs [("xjson".toList, "foo".toList)]⟩), []⟩,
            "foo:string".toList, Res.ok ()⟩ ∧
    "foo".toList ≠ "Orig".toList := by
  refine ⟨rfl, by decide, by decide, by decide⟩

theorem Basic_Template_st (E : Env) (lang : Language) (t : Ref) (s : State) :
    (Basic.Template E lang t s).st = s := by
  unfold Basic.Template
  simp only [bind_eq]
  rw [M.bind_res]
  cases hx : newTemplate E "basic.tmpl" (lang ++ "/basic.tmpl") with
  | error e => rfl
  | ok tb =>
    simp only [liftExcept_ok]
    exact Tmpl.run_st _ _ _

/-- The cells of the receiver and of the new `Basic` after an override. -/
theorem override_cells {h : Heap} {t : Ref} (x y : Node) (nb : Node) (ht : t < h.length) :
    ((h.set t x ++ [nb]).set t y)[t]? = some y ∧
    ((h.set t x ++ [nb]).set t y)[h.length]? = some nb ∧
    (h.set t x ++ [nb])[t]? = some x := by
  have hl : (h.set t x).length = h.length := List.length_set _ _ _
  have hlt : t < (h.set t x ++ [nb]).length := by
    rw [List.length_append, hl]
    exact Nat.lt_of_lt_of_le ht (Nat.le_add_right _ _)
  refine ⟨List.getElem?_set_self hlt, ?_, ?_⟩
  · rw [List.getElem?_set_ne (Nat.ne_of_lt ht), ← hl, List.getElem?_append_right (Nat.le_refl _)]
    simp
  · rw [List.getElem?_append_left (by rw [hl]; exact ht)]
    exact List.getElem?_set_self ht

/-- The `tw` override with two parts `[ty, flag]`: after the `field_name`
fragment the method installs `Basic{ty, b}` at a fresh address, `b` being the
parsed flag or `false`, logs a failed parse, and renders that `Basic`. -/
theorem Field_Template_two_parts (E : Env) (lang : Language) (n : Nat) (t : Ref) (f : Field)
    (s : State) (tn : Tmpl) (txtN ty flag : Str)
    (ht : s.heap[t]? = some (Node.field f))
    (htw : strings.Split (getTag "tw".toList f.Tag) ',' = [ty, flag])
    (hn : newTemplate E "field_name.tmpl" (lang ++ "/field_name.tmpl") = Except.ok tn)
    (hne : tn.Execute (s.heap.set t (Node.field f.renamed)) (Data.ptr t) = (txtN, none))
    (s2 : State)
    (hs2 : s2 = ⟨(s.heap.set t (Node.field f.renamed) ++
            [Node.basic ⟨ty, (strconv.ParseBool flag).1⟩]).set t
            (Node.field { f.renamed with Typ := some s.heap.length }),
          s.log ++ (match (strconv.ParseBool flag).2 with
            | some err =>
              [⟨err, [], "error parsing bool for type ".toList ++ f.renamed.Name⟩]
            | none => [])⟩) :
    Field.Template (Templater.Template E lang (n + 1)) E lang t s
      = ⟨s2, txtN ++ (Basic.Template E lang s.heap.length s2).out,
          (Basic.Template E lang s.heap.length s2).res⟩ := by
  have hlt : t < s.heap.length := (List.getElem?_eq_some.mp ht).1
  have hs1 : (s.heap.set t (Node.field f.renamed))[t]? = some (Node.field f.renamed) :=
    List.getElem?_set_self hlt
  have hc1 : ∀ x y nb : Node, ((s.heap.set t x ++ [nb]).set t y)[t]? = some y :=
    fun x y nb => (override_cells x y nb hlt).1
  have hc2 : ∀ x y nb : Node, ((s.heap.set t x ++ [nb]).set t y)[s.heap.length]? = some nb :=
    fun x y nb => (override_cells x y nb hlt).2.1
  have hc3 : ∀ x nb : Node, (s.heap.set t x ++ [nb])[t]? = some x :=
    fun x nb => (override_cells x x nb hlt).2.2
  have hl : ∀ x : Node, (s.heap.set t x).length = s.heap.length :=
    fun x => List.length_set _ _ _
  subst hs2
  unfold Field.Template
  simp only [bind_eq]
  rw [rename_first_step _ ht, hn, M.bind_eq_of_eq (liftExcept_ok tn _),
    M.bind_eq_of_eq (Tmpl.run_ok hne), M.bind_eq_of_eq (derefField_eq hs1)]
  simp only [htw, Field.renamed_Tag]
  cases hp : (strconv.ParseBool flag).2 with
  | none =>
    simp only [M.bind, M.pure, alloc, setType, hc3, hl, derefField, hc1, Templater.Template,
      hc2, List.nil_append, List.append_nil, Basic_Template_st, Field.renamed_Tag]
  | some err =>
    simp only [M.bind, logError, alloc, setType, hc3, hl, derefField, hc1, Templater.Template,
      hc2, List.nil_append, Basic_Template_st, Field.renamed_Tag]

theorem Basic_Template_eq {E : Env} {lang : Language} {r : Ref} {s : State} {tb : Tmpl}
    {txtB : Str} (hb : newTemplate E "basic.tmpl" (lang ++ "/basic.tmpl") = Except.ok tb)
    (hbe : tb.Execute s.heap (Data.ptr r) = (txtB, none)) :
    Basic.Template E lang r s = ⟨s, txtB, Res.ok ()⟩ := by
  unfold Basic.Template
  simp only [bind_eq]
  rw [hb, M.bind_eq_of_eq (liftExcept_ok tb s), Tmpl.run_ok hbe]
  rfl

theorem strconv.ParseBool_err {str : Str} {e : Error} (h : (strconv.ParseBool str).2 = some e) :
    (strconv.ParseBool str).1 = false ∧ e = Error.parseBool str := by
  unfold strconv.ParseBool at h ⊢
  split_ifs at h ⊢ with h1 h2
  simp only [Option.some.injEq] at h
  exact ⟨rfl, h.symm⟩

theorem Templater_Template_nil (E : Env) (lang : Language) (n : Nat) (s : State) :
    Templater.Template E lang n none s = ⟨s, [], Res.panic⟩ := by
  cases n <;> rfl

/-- A tag without override: after the `field_name` fragment the method renders
the declared `Type` of the field and changes nothing else. -/
theorem Field_Template_no_override (dyn : Templater → M Unit) (E : Env) (lang : Language)
    (t : Ref) (f : Field) (s : State) (tn : Tmpl) (txtN : Str)
    (ht : s.heap[t]? = some (Node.field f))
    (hov : tagOverride f.Tag = none)
    (hn : newTemplate E "field_name.tmpl" (lang ++ "/field_name.tmpl") = Except.ok tn)
    (hne : tn.Execute (s.heap.set t (Node.field f.renamed)) (Data.ptr t) = (txtN, none)) :
    Field.Template dyn E lang t s
      = ⟨(dyn f.Typ { s with heap := s.heap.set t (Node.field f.renamed) }).st,
          txtN ++ (dyn f.Typ { s with heap := s.heap.set t (Node.field f.renamed) }).out,
          (dyn f.Typ { s with heap := s.heap.set t (Node.field f.renamed) }).res⟩ := by
  have hlt : t < s.heap.length := (List.getElem?_eq_some.mp ht).1
  have hs1 : (s.heap.set t (Node.field f.renamed))[t]? = some (Node.field f.renamed) :=
    List.getElem?_set_self hlt
  unfold Field.Template
  simp only [bind_eq]
  rw [rename_first_step _ ht, hn, M.bind_eq_of_eq (liftExcept_ok tn _),
    M.bind_eq_of_eq (Tmpl.run_ok hne), M.bind_eq_of_eq (derefField_eq hs1)]
  simp only [Field.renamed_Tag]
  unfold tagOverride at hov
  rcases hsp : strings.Split (getTag "tw".toList f.Tag) ',' with _ | ⟨o0, _ | ⟨o1, _ | ⟨o2, r⟩⟩⟩
  · simp only [M.bind, M.pure, derefField, hs1, List.nil_append, Field.renamed_Typ]
  · rw [hsp] at hov
    have h0 : o0 = [] := by
      by_contra h
      simp [h] at hov
    simp only [h0, ne_eq, not_true_eq_false, if_false, M.bind, M.pure, derefField, hs1,
      List.nil_append, Field.renamed_Typ]
  · rw [hsp] at hov
    simp at hov
  · simp only [M.bind, M.pure, derefField, hs1, List.nil_append, Field.renamed_Typ]

/-- C4: a `Field` whose `tw` value is `[ty, flag]` with `flag` the boolean `b`
writes, after the `field_name` fragment, exactly the render of a new
`Basic{ty, b}`, whatever its declared `Type` was, and has that `Basic` as its
`Type` after the render. -/
theorem Field_Template_tw_pointer (E : Env) (lang : Language) (n : Nat) (t : Ref) (f : Field)
    (s : State) (tn : Tmpl) (txtN ty flag : Str) (b : Bool)
    (ht : s.heap[t]? = some (Node.field f))
    (htw : strings.Split (getTag "tw".toList f.Tag) ',' = [ty, flag])
    (hb : strconv.ParseBool flag = (b, none))
    (hn : newTemplate E "field_name.tmpl" (lang ++ "/field_name.tmpl") = Except.ok tn)
    (hne : tn.Execute (s.heap.set t (Node.field f.renamed)) (Data.ptr t) = (txtN, none))
    (s2 : State)
    (hs2 : s2 = ⟨(s.heap.set t (Node.field f.renamed) ++ [Node.basic ⟨ty, b⟩]).set t
            (Node.field { f.renamed with Typ := some s.heap.length }), s.log⟩) :
    Field.Template (Templater.Template E lang (n + 1)) E lang t s
        = ⟨s2, txtN ++ (Basic.Template E lang s.heap.length s2).out,
            (Basic.Template E lang s.heap.length s2).res⟩ ∧
      s2.heap[s.heap.length]? = some (Node.basic ⟨ty, b⟩) ∧
      s2.heap[t]? = some (Node.field { f.renamed with Typ := some s.heap.length }) := by
  have hlt : t < s.heap.length := (List.getElem?_eq_some.mp ht).1
  obtain ⟨hc1, hc2, _⟩ := override_cells (Node.field f.renamed)
    (Node.field { f.renamed with Typ := some s.heap.length }) (Node.basic ⟨ty, b⟩) hlt
  refine ⟨?_, by rw [hs2]; exact hc2, by rw [hs2]; exact hc1⟩
  refine Field_Template_two_parts E lang n t f s tn txtN ty flag ht htw hn hne s2 ?_
  rw [hs2, hb]
  simp

/-- C4, worked example: the field `Orig` of declared type `string` tagged
`tw:"int64,true"` is rendered as `Orig:int64*`, the `basic` fragment being
executed on a new `Basic{"int64", true}`. -/
theorem Field_Template_tw_pointer_witness :
    Field.Template (Templater.Template demoEnv "go" 1) demoEnv "go" 2 demoFieldState
      = ⟨⟨(demoFieldState.heap ++ [Node.basic ⟨"int64".toList, true⟩]).set 2
            (Node.field ⟨"Orig".toList, some 5, [], "tw:\"int64,true\"".toList⟩), []⟩,
          "Orig:int64*".toList, Res.ok ()⟩ :=
  (Field_Template_tw_pointer demoEnv "go" 0 2
    ⟨"Orig".toList, some 0, [], "tw:\"int64,true\"".toList⟩ demoFieldState demoFieldName
    "Orig:".toList "int64".toList "true".toList true rfl (by decide) (by decide) rfl rfl
    _ rfl).1

/-- C5: a `Field` whose `tw` value is `[ty, flag]` with `flag` not a boolean is
not stopped by the parse failure: the failure is logged, the `Type` becomes a
new `Basic{ty, false}`, that `Basic` is rendered, and the render succeeds when
the `field_name` and `basic` fragments do. -/
theorem Field_Template_tw_bad_flag (E : Env) (lang : Language) (n : Nat) (t : Ref) (f : Field)
    (s : State) (tn tb : Tmpl) (txtN txtB ty flag : Str) (e : Error)
    (ht : s.heap[t]? = some (Node.field f))
    (htw : strings.Split (getTag "tw".toList f.Tag) ',' = [ty, flag])
    (hb : (strconv.ParseBool flag).2 = some e)
    (hn : newTemplate E "field_name.tmpl" (lang ++ "/field_name.tmpl") = Except.ok tn)
    (hne : tn.Execute (s.heap.set t (Node.field f.renamed)) (Data.ptr t) = (txtN, none))
    (s2 : State)
    (hs2 : s2 = ⟨(s.heap.set t (Node.field f.renamed) ++ [Node.basic ⟨ty, false⟩]).set t
            (Node.field { f.renamed with Typ := some s.heap.length }),
          s.log ++ [⟨e, [], "error parsing bool for type ".toList ++ f.renamed.Name⟩]⟩)
    (hbt : newTemplate E "basic.tmpl" (lang ++ "/basic.tmpl") = Except.ok tb)
    (hbe : tb.Execute s2.heap (Data.ptr s.heap.length) = (txtB, none)) :
    Field.Template (Templater.Template E lang (n + 1)) E lang t s
        = ⟨s2, txtN ++ txtB, Res.ok ()⟩ ∧
      s2.heap[s.heap.length]? = some (Node.basic ⟨ty, false⟩) ∧
      s2.heap[t]? = some (Node.field { f.renamed with Typ := some s.heap.length }) := by
  have hlt : t < s.heap.length := (List.getElem?_eq_some.mp ht).1
  obtain ⟨hc1, hc2, _⟩ := override_cells (Node.field f.renamed)
    (Node.field { f.renamed with Typ := some s.heap.length }) (Node.basic ⟨ty, false⟩) hlt
  refine ⟨?_, by rw [hs2]; exact hc2, by rw [hs2]; exact hc1⟩
  have hrun := Field_Template_two_parts E lang n t f s tn txtN ty flag ht htw hn hne s2
    (by rw [hs2, hb, (strconv.ParseBool_err hb).1])
  rw [hrun, Basic_Template_eq hbt hbe]

/-- C5, worked example: the field `Orig` tagged `tw:"int64,notabool"` is
rendered as `Orig:int64`; the parse failure is in the log. -/
theorem Field_Template_tw_bad_flag_witness :
    Field.Template (Templater.Template demoEnv "go" 1) demoEnv "go" 3 demoFieldState
      = ⟨⟨(demoFieldState.heap ++ [Node.basic ⟨"int64".toList, false⟩]).set 3
            (Node.field ⟨"Orig".toList, some 5, [], "tw:\"int64,notabool\"".toList⟩),
          [⟨Error.parseBool "notabool".toList, [],
            "error parsing bool for type Orig".toList⟩]⟩,
          "Orig:int64".toList, Res.ok ()⟩ :=
  (Field_Template_tw_bad_flag demoEnv "go" 0 3
    ⟨"Orig".toList, some 0, [], "tw:\"int64,notabool\"".toList⟩ demoFieldState demoFieldName
    demoBasic "Orig:".toList "int64".toList "int64".toList "notabool".toList
    (Error.parseBool "notabool".toList) rfl (by decide) (by decide) rfl rfl _ rfl rfl rfl).1

/-- C7, the code at a `Field` without `Type` and without override: after the
`field_name` fragment the call through the `nil` interface panics; no error is
returned and nothing is logged. -/
theorem Field_Template_nil_type_panics (E : Env) (lang : Language) (n : Nat) (t : Ref)
    (f : Field) (s : State) (tn : Tmpl) (txtN : Str)
    (ht : s.heap[t]? = some (Node.field f))
    (hty : f.Typ = none)
    (hov : tagOverride f.Tag = none)
    (hn : newTemplate E "field_name.tmpl" (lang ++ "/field_name.tmpl") = Except.ok tn)
    (hne : tn.Execute (s.heap.set t (Node.field f.renamed)) (Data.ptr t) = (txtN, none)) :
    Field.Template (Templater.Template E lang n) E lang t s
      = ⟨{ s with heap := s.heap.set t (Node.field f.renamed) }, txtN, Res.panic⟩ := by
  rw [Field_Template_no_override _ E lang t f s tn txtN ht hov hn hne, hty,
    Templater_Template_nil]
  simp

/-- C7, the failing input: the field `Orig` without `Type` and without tag
panics after writing `Orig:`, while the `PackageType` without `Type` of the
same fragment set returns `errNoType`. -/
theorem Field_Template_nil_type_panics_witness :
    Field.Template (Templater.Template demoEnv "go" 1) demoEnv "go" 4 demoFieldState
        = ⟨demoFieldState, "Orig:".toList, Res.panic⟩ ∧
    (PackageType.Template (Templater.Template demoEnv "go" 1) demoEnv "go" 0
        demoPackageState).res = Res.err errNoType :=
  ⟨Field_Template_nil_type_panics demoEnv "go" 1 4 ⟨"Orig".toList, none, [], []⟩
      demoFieldState demoFieldName "Orig:".toList rfl rfl (by decide) rfl rfl,
   by decide⟩

/-! ## Struct -/

theorem ignoreErr_Raw_newline (E : Env) (s : State) :
    ignoreErr (Raw E ['\n']) s = ⟨s, ['\n'], Res.ok ()⟩ := by
  have hp : parseText E "raw" ['\n'] = Except.ok ⟨fun _ _ => (['\n'], none)⟩ := by
    unfold parseText
    rw [if_pos (by decide)]
  unfold ignoreErr Raw
  simp only [bind_eq]
  rw [hp, M.bind_eq_of_eq (liftExcept_ok _ s)]
  rfl

/-- The loop of `Struct.Template` from index `i0` on, along a chain of states
`σ`: every field render and every fragment succeeds. -/
theorem Struct_rangeFields_run (E : Env) (lang : Language) (n : Nat) (t : Ref) (S : Struct)
    (tfc tcm : Tmpl) (σ : Nat → State) (fo fc co : Nat → Str) (v : Nat → Field)
    (hfcT : 2 ≤ S.Fields.length →
      newTemplate E "field_close.tmpl" (lang ++ "/field_close.tmpl") = Except.ok tfc)
    (hcm : newTemplate E "comment.tmpl" (lang ++ "/comment.tmpl") = Except.ok tcm)
    (hF : ∀ i f, S.Fields[i]? = some f →
      Field.Template (Templater.Template E lang n) E lang (σ i).heap.length
          ⟨(σ i).heap ++ [Node.field f], (σ i).log⟩
        = ⟨σ (i + 1), fo i, Res.ok ()⟩)
    (hV : ∀ i, i < S.Fields.length →
      (σ (i + 1)).heap[(σ i).heap.length]? = some (Node.field (v i)))
    (hFC : ∀ i, i + 1 < S.Fields.length →
      tfc.Execute (σ (i + 1)).heap Data.nil = (fc i, none))
    (hC : ∀ i, i < S.Fields.length →
      tcm.Execute (σ (i + 1)).heap (Data.field (v i)) = (co i, none))
    (hT : ∀ i, i ≤ S.Fields.length → (σ i).heap[t]? = some (Node.struct S)) :
    ∀ (rest : List Field) (i0 : Nat), i0 ≤ S.Fields.length → S.Fields.drop i0 = rest →
      Struct.rangeFields (Templater.Template E lang n) E lang t i0 rest (σ i0)
        = ⟨σ S.Fields.length,
            ((List.range' i0 rest.length).map (fun i =>
              fo i ++ (if i + 1 < S.Fields.length then fc i ++ co i else co i ++ ['\n']))).flatten,
            Res.ok ()⟩ := by
  intro rest
  induction rest with
  | nil =>
    intro i0 hi0 hdrop
    have hlen : S.Fields.length ≤ i0 := List.drop_eq_nil_iff.mp hdrop
    have he : i0 = S.Fields.length := Nat.le_antisymm hi0 hlen
    subst he
    rfl
  | cons f rest ih =>
    intro i0 hi0 hdrop
    have hget : S.Fields[i0]? = some f := by
      have h0 := List.getElem?_drop S.Fields i0 0
      rw [hdrop] at h0
      simpa using h0.symm
    have hlt : i0 < S.Fields.length := (List.getElem?_eq_some.mp hget).1
    have hdrop' : S.Fields.drop (i0 + 1) = rest := by
      rw [← List.tail_drop, hdrop]
      rfl
    have hrec := ih (i0 + 1) hlt hdrop'
    have halloc : alloc (Node.field f) (σ i0)
        = ⟨⟨(σ i0).heap ++ [Node.field f], (σ i0).log⟩, [], Res.ok (σ i0).heap.length⟩ := rfl
    unfold Struct.rangeFields
    simp only [bind_eq]
    rw [M.bind_eq_of_eq halloc, M.bind_eq_of_eq (hF i0 f hget),
      M.bind_eq_of_eq (derefStruct_eq (hT (i0 + 1) hlt))]
    by_cases hlast : i0 + 1 < S.Fields.length
    · have hcond : ((i0 : Int) < (S.Fields.length : Int) - 1) := by omega
      rw [if_pos hcond, hfcT (by omega), hcm]
      simp only [M.bind, liftExcept_ok, Tmpl.run_ok (hFC i0 hlast), derefField_eq (hV i0 hlt),
        Tmpl.run_ok (hC i0 hlt), hrec, List.length_cons, List.range'_succ, List.map_cons,
        List.flatten_cons, if_pos hlast, List.nil_append, List.append_assoc]
    · have hcond : ¬ ((i0 : Int) < (S.Fields.length : Int) - 1) := by omega
      rw [if_neg hcond, hcm]
      simp only [M.bind, liftExcept_ok, derefField_eq (hV i0 hlt),
        Tmpl.run_ok (hC i0 hlt), ignoreErr_Raw_newline, hrec, List.length_cons,
        List.range'_succ, List.map_cons, List.flatten_cons, if_neg hlast, List.nil_append,
        List.append_assoc]

/-- A successful `Field.Template` has resolved `field_name`, executed it on the
renamed cell without error, and its output starts with the text of that
fragment. -/
theorem Field_Template_ok_starts {dyn : Templater → M Unit} {E : Env} {lang : Language}
    {t : Ref} {f : Field} {s s' : State} {out : Str}
    (ht : s.heap[t]? = some (Node.field f))
    (h : Field.Template dyn E lang t s = ⟨s', out, Res.ok ()⟩) :
    ∃ tn txt rest,
      newTemplate E "field_name.tmpl" (lang ++ "/field_name.tmpl") = Except.ok tn ∧
      tn.Execute (s.heap.set t (Node.field f.renamed)) (Data.ptr t) = (txt, none) ∧
      out = txt ++ rest := by
  unfold Field.Template at h
  simp only [bind_eq] at h
  rw [rename_first_step _ ht] at h
  cases hn : newTemplate E "field_name.tmpl" (lang ++ "/field_name.tmpl") with
  | error e =>
    rw [hn] at h
    simp [M.bind, liftExcept_error] at h
  | ok tn =>
    rw [hn, M.bind_eq_of_eq (liftExcept_ok tn _)] at h
    rcases hx : tn.Execute (s.heap.set t (Node.field f.renamed)) (Data.ptr t) with ⟨txt, _ | e⟩
    · rw [M.bind_eq_of_eq (Tmpl.run_ok hx)] at h
      have hout := congrArg Outcome.out h
      simp only [List.nil_append] at hout
      exact ⟨tn, txt, _, rfl, hx, hout.symm⟩
    · have hr : (tn.run (Data.ptr t) { s with heap := s.heap.set t (Node.field f.renamed) }).res
          = Res.err e := by rw [Tmpl.run_err hx]
      rw [M.bind_res, hr] at h
      simp at h

theorem List.set_append_last {α : Type} (l : List α) (x y : α) :
    (l ++ [x]).set l.length y = l ++ [y] := by
  induction l with
  | nil => rfl
  | cons a l ih => simp [ih]

/-- C1: for a `Struct` with fields `f0 .. fn-1`, with every resolution, fragment
and field render succeeding along the chain of states `σ`, `Struct.Template`
writes `struct_open`, then for each
field in order its render `fo i` followed by `field_close` and `comment` when
it is not the last one, or by `comment` and one newline when it is, then
`struct_close`.  Each field render starts with the text of `field_name`
executed on the renamed copy of the field.  So the struct and its `n` fields
emit `n` times `field_name`, `n - 1` times `field_close`, `n` times `comment`
and one newline, after the last comment. -/
theorem Struct_Template_output (E : Env) (lang : Language) (n : Nat) (t : Ref) (S : Struct)
    (s : State) (tso tsc tfc tcm : Tmpl) (txtO txtC : Str)
    (σ : Nat → State) (fo fc co : Nat → Str) (v : Nat → Field)
    (ht : s.heap[t]? = some (Node.struct S))
    (hso : newTemplate E "struct_open.tmpl" (lang ++ "/struct_open.tmpl") = Except.ok tso)
    (hsoe : tso.Execute s.heap (Data.ptr t) = (txtO, none))
    (hσ : σ 0 = s)
    (hF : ∀ i f, S.Fields[i]? = some f →
      Field.Template (Templater.Template E lang n) E lang (σ i).heap.length
          ⟨(σ i).heap ++ [Node.field f], (σ i).log⟩
        = ⟨σ (i + 1), fo i, Res.ok ()⟩)
    (hV : ∀ i, i < S.Fields.length →
      (σ (i + 1)).heap[(σ i).heap.length]? = some (Node.field (v i)))
    (hfcT : 2 ≤ S.Fields.length →
      newTemplate E "field_close.tmpl" (lang ++ "/field_close.tmpl") = Except.ok tfc)
    (hFC : ∀ i, i + 1 < S.Fields.length →
      tfc.Execute (σ (i + 1)).heap Data.nil = (fc i, none))
    (hcm : newTemplate E "comment.tmpl" (lang ++ "/comment.tmpl") = Except.ok tcm)
    (hC : ∀ i, i < S.Fields.length →
      tcm.Execute (σ (i + 1)).heap (Data.field (v i)) = (co i, none))
    (hsc : newTemplate E "struct_close.tmpl" (lang ++ "/struct_close.tmpl") = Except.ok tsc)
    (hsce : tsc.Execute (σ S.Fields.length).heap (Data.ptr t) = (txtC, none)) :
    Struct.Template (Templater.Template E lang n) E lang t s
        = ⟨σ S.Fields.length,
            txtO ++ ((List.range S.Fields.length).map (fun i =>
              fo i ++ (if i + 1 < S.Fields.length then fc i ++ co i else co i ++ ['\n']))).flatten
              ++ txtC,
            Res.ok ()⟩ ∧
      ∀ i f, S.Fields[i]? = some f →
        ∃ tn txt rest,
          newTemplate E "field_name.tmpl" (lang ++ "/field_name.tmpl") = Except.ok tn ∧
          tn.Execute ((σ i).heap ++ [Node.field f.renamed]) (Data.ptr (σ i).heap.length)
            = (txt, none) ∧
          fo i = txt ++ rest := by
  have hT : ∀ i, i ≤ S.Fields.length → (σ i).heap[t]? = some (Node.struct S) := by
    intro i
    induction i with
    | zero =>
      intro _
      rw [hσ]
      exact ht
    | succ i ih =>
      intro hi
      have hi' : i < S.Fields.length := hi
      have hget : S.Fields[i]? = some (S.Fields.get ⟨i, hi'⟩) := List.getElem?_eq_getElem hi'
      have hfr := Framed.Field_Template (Framed.Templater_Template E lang n) E lang
        (σ i).heap.length ⟨(σ i).heap ++ [Node.field (S.Fields.get ⟨i, hi'⟩)], (σ i).log⟩
      rw [hF i _ hget] at hfr
      have hprev := ih (Nat.le_of_lt hi')
      have hltt : t < (σ i).heap.length := (List.getElem?_eq_some.mp hprev).1
      refine hfr.keeps ?_ (by simp)
      show ((σ i).heap ++ [Node.field (S.Fields.get ⟨i, hi'⟩)])[t]? = some (Node.struct S)
      rw [List.getElem?_append_left hltt]
      exact hprev
  constructor
  · have hloop := Struct_rangeFields_run E lang n t S tfc tcm σ fo fc co v hfcT hcm hF hV hFC hC
      hT S.Fields 0 (Nat.zero_le _) rfl
    rw [hσ] at hloop
    have hTn := hT S.Fields.length (Nat.le_refl _)
    unfold Struct.Template
    simp only [bind_eq]
    rw [hso, M.bind_eq_of_eq (liftExcept_ok tso s), M.bind_eq_of_eq (Tmpl.run_ok hsoe),
      M.bind_eq_of_eq (derefStruct_eq ht), M.bind_eq_of_eq hloop, hsc,
      M.bind_eq_of_eq (liftExcept_ok tsc _), Tmpl.run_ok hsce]
    simp only [List.nil_append, List.append_assoc, List.range_eq_range']
  · intro i f hget
    have hcell : ((σ i).heap ++ [Node.field f])[(σ i).heap.length]? = some (Node.field f) := by
      rw [List.getElem?_append_right (Nat.le_refl _)]
      simp
    obtain ⟨tn, txt, rest, h1, h2, h3⟩ := Field_Template_ok_starts hcell (hF i f hget)
    rw [List.set_append_last] at h2
    exact ⟨tn, txt, rest, h1, h2, h3⟩

/-- C1, worked example: `demoStruct` renders as
`struct { a:int64*; //caB:string//cb` followed by a newline and `}`: two
`field_name`, one `field_close`, two `comment`, one newline. -/
theorem Struct_Template_output_witness :
    Struct.Template (Templater.Template demoEnv "go" 1) demoEnv "go" 1 (demoStructChain 0)
      = ⟨demoStructChain 2, "struct \x7b a:int64*; //caB:string//cb\n\x7d".toList, Res.ok ()⟩ :=
  (Struct_Template_output demoEnv "go" 1 1 demoStruct (demoStructChain 0)
    (demoText "struct \x7b ") (demoText "\x7d") (demoText "; ") demoComment
    "struct \x7b ".toList "\x7d".toList demoStructChain
    (fun i => if i = 0 then "a:int64*".toList else "B:string".toList)
    (fun _ => "; ".toList)
    (fun i => if i = 0 then "//ca".toList else "//cb".toList)
    (fun i => if i = 0 then
        ⟨"a".toList, some 3, "ca".toList, "json:\"a,omitempty\" tw:\"int64,true\"".toList⟩
      else ⟨"B".toList, some 0, "cb".toList, []⟩)
    rfl rfl rfl rfl
    (by
      intro i f h
      rcases i with _ | _ | i
      · cases h; rfl
      · cases h; rfl
      · cases h)
    (by
      intro i h
      rcases i with _ | _ | i
      · rfl
      · rfl
      · exact absurd h (by simp [demoStruct]))
    (fun _ => rfl)
    (by
      intro i h
      rcases i with _ | i
      · rfl
      · exact absurd h (by simp [demoStruct]))
    rfl
    (by
      intro i h
      rcases i with _ | _ | i
      · rfl
      · rfl
      · exact absurd h (by simp [demoStruct]))
    rfl rfl).1

/-! ## Field: the shapes of the `tw` value -/

theorem strings.splitAux_no_sep (sep : Char) :
    ∀ (s cur : Str), sep ∉ s → strings.splitAux sep s cur = [cur.reverse ++ s] := by
  intro s
  induction s with
  | nil =>
    intro cur _
    simp [strings.splitAux]
  | cons c cs ih =>
    intro cur h
    have hc : c ≠ sep := fun e => h (by simp [e])
    have hcs : sep ∉ cs := fun e => h (by simp [e])
    rw [strings.splitAux, if_neg hc, ih _ hcs]
    simp

/-- A text without the separator is its own single part. -/
theorem strings.Split_no_sep {s : Str} {sep : Char} (h : sep ∉ s) :
    strings.Split s sep = [s] := by
  unfold strings.Split
  rw [strings.splitAux_no_sep sep s [] h]
  rfl

theorem strings.splitAux_length (sep : Char) :
    ∀ (s cur : Str), (strings.splitAux sep s cur).length = s.count sep + 1 := by
  intro s
  induction s with
  | nil =>
    intro cur
    simp [strings.splitAux]
  | cons c cs ih =>
    intro cur
    by_cases h : c = sep
    · rw [strings.splitAux, if_pos h, List.length_cons, ih, h]
      simp
    · rw [strings.splitAux, if_neg h, ih]
      simp [List.count_cons, h]

/-- The number of parts is the number of separators plus one. -/
theorem strings.Split_length (s : Str) (sep : Char) :
    (strings.Split s sep).length = s.count sep + 1 :=
  strings.splitAux_length sep s []

theorem Templater_Template_basic {E : Env} {lang : Language} {n : Nat} {r : Ref} {s : State}
    {b : Basic} (h : s.heap[r]? = some (Node.basic b)) :
    Templater.Template E lang (n + 1) (some r) s = Basic.Template E lang r s := by
  simp only [Templater.Template, h]

/-- The `tw` override with one non-empty part `ty`: after the `field_name`
fragment the method installs `Basic{ty, false}` at a fresh address and calls
`Template` on it through the interface. -/
theorem Field_Template_one_part (dyn : Templater → M Unit) (E : Env) (lang : Language)
    (t : Ref) (f : Field) (s : State) (tn : Tmpl) (txtN ty : Str)
    (ht : s.heap[t]? = some (Node.field f))
    (htw : strings.Split (getTag "tw".toList f.Tag) ',' = [ty])
    (hty : ty ≠ [])
    (hn : newTemplate E "field_name.tmpl" (lang ++ "/field_name.tmpl") = Except.ok tn)
    (hne : tn.Execute (s.heap.set t (Node.field f.renamed)) (Data.ptr t) = (txtN, none))
    (s2 : State)
    (hs2 : s2 = ⟨(s.heap.set t (Node.field f.renamed) ++ [Node.basic ⟨ty, false⟩]).set t
            (Node.field { f.renamed with Typ := some s.heap.length }), s.log⟩) :
    Field.Template dyn E lang t s
      = ⟨(dyn (some s.heap.length) s2).st, txtN ++ (dyn (some s.heap.length) s2).out,
          (dyn (some s.heap.length) s2).res⟩ := by
  have hlt : t < s.heap.length := (List.getElem?_eq_some.mp ht).1
  have hs1 : (s.heap.set t (Node.field f.renamed))[t]? = some (Node.field f.renamed) :=
    List.getElem?_set_self hlt
  have hc1 : ∀ x y nb : Node, ((s.heap.set t x ++ [nb]).set t y)[t]? = some y :=
    fun x y nb => (override_cells x y nb hlt).1
  have hc3 : ∀ x nb : Node, (s.heap.set t x ++ [nb])[t]? = some x :=
    fun x nb => (override_cells x x nb hlt).2.2
  have hl : ∀ x : Node, (s.heap.set t x).length = s.heap.length :=
    fun x => List.length_set _ _ _
  subst hs2
  unfold Field.Template
  simp only [bind_eq]
  rw [rename_first_step _ ht, hn, M.bind_eq_of_eq (liftExcept_ok tn _),
    M.bind_eq_of_eq (Tmpl.run_ok hne), M.bind_eq_of_eq (derefField_eq hs1)]
  simp only [htw, Field.renamed_Tag]
  simp only [ne_eq, hty, not_false_eq_true, if_true, M.bind, alloc, setType, hc3, hl, derefField,
    hc1, List.nil_append, Field.renamed_Tag]

/-- The `tw` override with two parts `[ty, flag]`, for any way of calling
`Template` through the interface. -/
theorem Field_Template_two_parts_dyn (dyn : Templater → M Unit) (E : Env) (lang : Language)
    (t : Ref) (f : Field) (s : State) (tn : Tmpl) (txtN ty flag : Str)
    (ht : s.heap[t]? = some (Node.field f))
    (htw : strings.Split (getTag "tw".toList f.Tag) ',' = [ty, flag])
    (hn : newTemplate E "field_name.tmpl" (lang ++ "/field_name.tmpl") = Except.ok tn)
    (hne : tn.Execute (s.heap.set t (Node.field f.renamed)) (Data.ptr t) = (txtN, none))
    (s2 : State)
    (hs2 : s2 = ⟨(s.heap.set t (Node.field f.renamed) ++
            [Node.basic ⟨ty, (strconv.ParseBool flag).1⟩]).set t
            (Node.field { f.renamed with Typ := some s.heap.length }),
          s.log ++ (match (strconv.ParseBool flag).2 with
            | some err =>
              [⟨err, [], "error parsing bool for type ".toList ++ f.renamed.Name⟩]
            | none => [])⟩) :
    Field.Template dyn E lang t s
      = ⟨(dyn (some s.heap.length) s2).st, txtN ++ (dyn (some s.heap.length) s2).out,
          (dyn (some s.heap.length) s2).res⟩ := by
  have hlt : t < s.heap.length := (List.getElem?_eq_some.mp ht).1
  have hs1 : (s.heap.set t (Node.field f.renamed))[t]? = some (Node.field f.renamed) :=
    List.getElem?_set_self hlt
  have hc1 : ∀ x y nb : Node, ((s.heap.set t x ++ [nb]).set t y)[t]? = some y :=
    fun x y nb => (override_cells x y nb hlt).1
  have hc3 : ∀ x nb : Node, (s.heap.set t x ++ [nb])[t]? = some x :=
    fun x nb => (override_cells x x nb hlt).2.2
  have hl : ∀ x : Node, (s.heap.set t x).length = s.heap.length :=
    fun x => List.length_set _ _ _
  subst hs2
  unfold Field.Template
  simp only [bind_eq]
  rw [rename_first_step _ ht, hn, M.bind_eq_of_eq (liftExcept_ok tn _),
    M.bind_eq_of_eq (Tmpl.run_ok hne), M.bind_eq_of_eq (derefField_eq hs1)]
  simp only [htw, Field.renamed_Tag]
  cases hp : (strconv.ParseBool flag).2 with
  | none =>
    simp only [M.bind, M.pure, alloc, setType, hc3, hl, derefField, hc1,
      List.nil_append, List.append_nil, Field.renamed_Tag]
  | some err =>
    simp only [M.bind, logError, alloc, setType, hc3, hl, derefField, hc1,
      List.nil_append, Field.renamed_Tag]

/-- A tag with an override `b`: after the `field_name` fragment the method
installs `b` at a fresh address, makes it the `Type` of the field, and calls
`Template` on it through the interface. -/
theorem Field_Template_override (dyn : Templater → M Unit) (E : Env) (lang : Language)
    (t : Ref) (f : Field) (s : State) (tn : Tmpl) (txtN : Str) (b : Basic)
    (ht : s.heap[t]? = some (Node.field f))
    (hov : tagOverride f.Tag = some b)
    (hn : newTemplate E "field_name.tmpl" (lang ++ "/field_name.tmpl") = Except.ok tn)
    (hne : tn.Execute (s.heap.set t (Node.field f.renamed)) (Data.ptr t) = (txtN, none)) :
    ∃ s2 : State,
      s2.heap = (s.heap.set t (Node.field f.renamed) ++ [Node.basic b]).set t
        (Node.field { f.renamed with Typ := some s.heap.length }) ∧
      Field.Template dyn E lang t s
        = ⟨(dyn (some s.heap.length) s2).st, txtN ++ (dyn (some s.heap.length) s2).out,
            (dyn (some s.heap.length) s2).res⟩ := by
  unfold tagOverride at hov
  rcases hsp : strings.Split (getTag "tw".toList f.Tag) ',' with _ | ⟨o0, _ | ⟨o1, _ | ⟨o2, r⟩⟩⟩
  · rw [hsp] at hov
    simp at hov
  · rw [hsp] at hov
    by_cases h0 : o0 = []
    · simp [h0] at hov
    · simp only [ne_eq, h0, not_false_eq_true, if_true, Option.some.injEq] at hov
      subst hov
      exact ⟨_, rfl, Field_Template_one_part dyn E lang t f s tn txtN o0 ht hsp h0 hn hne _ rfl⟩
  · rw [hsp] at hov
    simp only [Option.some.injEq] at hov
    subst hov
    exact ⟨_, rfl, Field_Template_two_parts_dyn dyn E lang t f s tn txtN o0 o1 ht hsp hn hne _ rfl⟩
  · rw [hsp] at hov
    simp at hov

/-- The cell of the receiver after `Field.Template`, however the call ends:
still a `Field`, with the same `Comment` and `Tag`, the `Name` the renaming
gave it, and the same `Type` unless the tag has an override. -/
theorem Field_Template_final_cell (E : Env) (lang : Language) (n : Nat) (t : Ref) (f : Field)
    (s : State) (ht : s.heap[t]? = some (Node.field f)) :
    ∃ g, (Field.Template (Templater.Template E lang n) E lang t s).st.heap[t]?
        = some (Node.field g) ∧
      g.Comment = f.Comment ∧ g.Tag = f.Tag ∧ g.Name = f.renamed.Name ∧
      (g.Typ = f.Typ ∨ tagOverride f.Tag ≠ none) := by
  obtain ⟨K, hK, hrun, _⟩ :=
    Field_Template_split (Framed.Templater_Template E lang n) E lang t f s ht
  have hlt : t < s.heap.length := (List.getElem?_eq_some.mp ht).1
  have hs1 : (s.heap.set t (Node.field f.renamed))[t]? = some (Node.field f.renamed) :=
    List.getElem?_set_self hlt
  obtain ⟨g, hg, hc, htag, hname, htyp⟩ :=
    (hK { s with heap := s.heap.set t (Node.field f.renamed) }).keeps_field hs1
  rw [← hrun] at hg
  rw [Field.renamed_Tag] at htag hname htyp
  rw [Field.renamed_Comment] at hc
  rw [Field.renamed_Typ] at htyp
  refine ⟨g, hg, hc, htag, ?_, htyp⟩
  rcases hname with h | ⟨hal, h⟩
  · exact h
  · rw [h]
    unfold Field.renamed
    rw [if_pos hal]

theorem Field.renamed_of_no_alias {f : Field} (h : tagAlias f.Tag = []) : f.renamed = f := by
  unfold Field.renamed
  rw [if_neg (by simpa using h)]

/-- C11: a `Field` whose `tw` value is one non-empty part `ty` without comma
gets a new `Basic{ty, false}` as its `Type`, and writes, after the `field_name`
fragment, exactly the render of that `Basic`. -/
theorem Field_Template_tw_single (E : Env) (lang : Language) (n : Nat) (t : Ref) (f : Field)
    (s : State) (tn : Tmpl) (txtN ty : Str)
    (ht : s.heap[t]? = some (Node.field f))
    (htw : getTag "tw".toList f.Tag = ty)
    (hty : ty ≠ [])
    (hcomma : ',' ∉ ty)
    (hn : newTemplate E "field_name.tmpl" (lang ++ "/field_name.tmpl") = Except.ok tn)
    (hne : tn.Execute (s.heap.set t (Node.field f.renamed)) (Data.ptr t) = (txtN, none))
    (s2 : State)
    (hs2 : s2 = ⟨(s.heap.set t (Node.field f.renamed) ++ [Node.basic ⟨ty, false⟩]).set t
            (Node.field { f.renamed with Typ := some s.heap.length }), s.log⟩) :
    Field.Template (Templater.Template E lang (n + 1)) E lang t s
        = ⟨s2, txtN ++ (Basic.Template E lang s.heap.length s2).out,
            (Basic.Template E lang s.heap.length s2).res⟩ ∧
      s2.heap[s.heap.length]? = some (Node.basic ⟨ty, false⟩) ∧
      s2.heap[t]? = some (Node.field { f.renamed with Typ := some s.heap.length }) := by
  have hlt : t < s.heap.length := (List.getElem?_eq_some.mp ht).1
  obtain ⟨hc1, hc2, _⟩ := override_cells (Node.field f.renamed)
    (Node.field { f.renamed with Typ := some s.heap.length }) (Node.basic ⟨ty, false⟩) hlt
  have hb : s2.heap[s.heap.length]? = some (Node.basic ⟨ty, false⟩) := by rw [hs2]; exact hc2
  refine ⟨?_, hb, by rw [hs2]; exact hc1⟩
  have hsp : strings.Split (getTag "tw".toList f.Tag) ',' = [ty] := by
    rw [htw]
    exact strings.Split_no_sep hcomma
  rw [Field_Template_one_part _ E lang t f s tn txtN ty ht hsp hty hn hne s2 hs2,
    Templater_Template_basic hb, Basic_Template_st]

/-- C11, worked example: the field `Orig` of declared type `string` tagged
`tw:"int64"` is rendered as `Orig:int64`, on a new `Basic{"int64", false}`. -/
theorem Field_Template_tw_single_witness :
    Field.Template (Templater.Template demoEnv "go" 1) demoEnv "go" 1 demoTagState
      = ⟨⟨(demoTagState.heap ++ [Node.basic ⟨"int64".toList, false⟩]).set 1
            (Node.field ⟨"Orig".toList, some 6, [], "tw:\"int64\"".toList⟩), []⟩,
          "Orig:int64".toList, Res.ok ()⟩ :=
  (Field_Template_tw_single demoEnv "go" 0 1
    ⟨"Orig".toList, some 0, [], "tw:\"int64\"".toList⟩ demoTagState demoFieldName
    "Orig:".toList "int64".toList rfl (by decide) (by decide) (by decide) rfl rfl _ rfl).1

/-- C12, as amended: a `Field` for whose tag `getTag("tw", Tag)` is empty,
because `tw:"` occurs nowhere in the tag as a substring or because the value
found is empty, keeps its `Type` and has its declared `Type` rendered after
the `field_name` fragment; when the alias that `getTag("json", Tag)` gives is
empty too, the render starts from the unchanged state and leaves the field as
it was. -/
theorem Field_Template_no_tw (E : Env) (lang : Language) (n : Nat) (t : Ref) (f : Field)
    (s : State) (ht : s.heap[t]? = some (Node.field f))
    (htw : (¬ ∃ q u : Str, f.Tag = q ++ ("tw".toList ++ [':', '"']) ++ u) ∨
      getTag "tw".toList f.Tag = []) :
    (∃ g, (Field.Template (Templater.Template E lang n) E lang t s).st.heap[t]?
        = some (Node.field g) ∧ g.Typ = f.Typ) ∧
    (∀ tn txtN,
      newTemplate E "field_name.tmpl" (lang ++ "/field_name.tmpl") = Except.ok tn →
      tn.Execute (s.heap.set t (Node.field f.renamed)) (Data.ptr t) = (txtN, none) →
      Field.Template (Templater.Template E lang n) E lang t s
        = ⟨(Templater.Template E lang n f.Typ
              { s with heap := s.heap.set t (Node.field f.renamed) }).st,
            txtN ++ (Templater.Template E lang n f.Typ
              { s with heap := s.heap.set t (Node.field f.renamed) }).out,
            (Templater.Template E lang n f.Typ
              { s with heap := s.heap.set t (Node.field f.renamed) }).res⟩) ∧
    (tagAlias f.Tag = [] →
      s.heap.set t (Node.field f.renamed) = s.heap ∧
      (Field.Template (Templater.Template E lang n) E lang t s).st.heap[t]?
        = some (Node.field f)) := by
  have htw' : getTag "tw".toList f.Tag = [] := by
    rcases htw with h | h
    · exact getTag_of_no_occurrence h
    · exact h
  have hov : tagOverride f.Tag = none := by
    unfold tagOverride
    rw [htw']
    rfl
  obtain ⟨g, hg, hc, htag, hname, htyp⟩ := Field_Template_final_cell E lang n t f s ht
  have htyp' : g.Typ = f.Typ := by
    rcases htyp with h | h
    · exact h
    · exact absurd hov h
  refine ⟨⟨g, hg, htyp'⟩, ?_, ?_⟩
  · intro tn txtN hn hne
    exact Field_Template_no_override _ E lang t f s tn txtN ht hov hn hne
  · intro hal
    have hr := Field.renamed_of_no_alias hal
    rw [hr] at hname
    refine ⟨by rw [hr]; exact List.set_same ht, ?_⟩
    rw [hg]
    cases g
    cases f
    simp_all

/-- C12, worked example: the field `Orig` of type `string` tagged `xml:"o"` is
rendered as `Orig:string` and nothing in the state changes. -/
theorem Field_Template_no_tw_witness :
    Field.Template (Templater.Template demoEnv "go" 1) demoEnv "go" 4 demoTagState
        = ⟨demoTagState, "Orig:string".toList, Res.ok ()⟩ ∧
    (Field.Template (Templater.Template demoEnv "go" 1) demoEnv "go" 4 demoTagState).st.heap[4]?
        = some (Node.field ⟨"Orig".toList, some 0, [], "xml:\"o\"".toList⟩) :=
  ⟨(Field_Template_no_tw demoEnv "go" 1 4 ⟨"Orig".toList, some 0, [], "xml:\"o\"".toList⟩
      demoTagState rfl (Or.inr (by decide))).2.1 demoFieldName "Orig:".toList rfl rfl,
   ((Field_Template_no_tw demoEnv "go" 1 4 ⟨"Orig".toList, some 0, [], "xml:\"o\"".toList⟩
      demoTagState rfl (Or.inr (by decide))).2.2 (by decide)).2⟩

/-- C12, counterexample to the claim as first stated: the tag `xtw:"int64"` has
the single key `xtw`, so it has no `tw` key, and still the field `Orig` of
declared type `string` gets a new `Basic{"int64", false}` as its `Type` and is
rendered as `Orig:int64`. -/
theorem Field_Template_no_tw_counterexample :
    demoKeyState.heap[2]?
        = some (Node.field ⟨"Orig".toList, some 0, [],
            tagOfPairs [("xtw".toList, "int64".toList)]⟩) ∧
    "tw".toList ∉ [("xtw".toList, "int64".toList)].map Prod.fst ∧
    Field.Template (Templater.Template demoEnv "go" 1) demoEnv "go" 2 demoKeyState
        = ⟨⟨(demoKeyState.heap ++ [Node.basic ⟨"int64".toList, false⟩]).set 2
              (Node.field ⟨"Orig".toList, some 3, [],
                tagOfPairs [("xtw".toList, "int64".toList)]⟩), []⟩,
            "Orig:int64".toList, Res.ok ()⟩ ∧
    (some 3 : Templater) ≠ some 0 := by
  refine ⟨rfl, by decide, by decide, by decide⟩

/-- C18: a `Field` whose `tw` value has two or more commas gets no override:
its `Type` is unchanged and its declared `Type` is what is rendered after the
`field_name` fragment. -/
theorem Field_Template_tw_three_parts (E : Env) (lang : Language) (n : Nat) (t : Ref)
    (f : Field) (s : State) (ht : s.heap[t]? = some (Node.field f))
    (htw : 2 ≤ (getTag "tw".toList f.Tag).count ',') :
    (∃ g, (Field.Template (Templater.Template E lang n) E lang t s).st.heap[t]?
        = some (Node.field g) ∧ g.Typ = f.Typ) ∧
    (∀ tn txtN,
      newTemplate E "field_name.tmpl" (lang ++ "/field_name.tmpl") = Except.ok tn →
      tn.Execute (s.heap.set t (Node.field f.renamed)) (Data.ptr t) = (txtN, none) →
      Field.Template (Templater.Template E lang n) E lang t s
        = ⟨(Templater.Template E lang n f.Typ
              { s with heap := s.heap.set t (Node.field f.renamed) }).st,
            txtN ++ (Templater.Template E lang n f.Typ
              { s with heap := s.heap.set t (Node.field f.renamed) }).out,
            (Templater.Template E lang n f.Typ
              { s with heap := s.heap.set t (Node.field f.renamed) }).res⟩) := by
  have hov : tagOverride f.Tag = none := by
    have hlen := strings.Split_length (getTag "tw".toList f.Tag) ','
    unfold tagOverride
    rcases hsp : strings.Split (getTag "tw".toList f.Tag) ',' with
      _ | ⟨o0, _ | ⟨o1, _ | ⟨o2, r⟩⟩⟩
    · rfl
    · rw [hsp] at hlen
      simp only [List.length_cons, List.length_nil] at hlen
      omega
    · rw [hsp] at hlen
      simp only [List.length_cons, List.length_nil] at hlen
      omega
    · rfl
  obtain ⟨g, hg, _, _, _, htyp⟩ := Field_Template_final_cell E lang n t f s ht
  refine ⟨⟨g, hg, ?_⟩, ?_⟩
  · rcases htyp with h | h
    · exact h
    · exact absurd hov h
  · intro tn txtN hn hne
    exact Field_Template_no_override _ E lang t f s tn txtN ht hov hn hne

/-- C18, worked example: the field `Orig` of type `string` tagged
`tw:"int64,true,x"` is rendered as `Orig:string` and keeps its `Type`. -/
theorem Field_Template_tw_three_parts_witness :
    Field.Template (Templater.Template demoEnv "go" 1) demoEnv "go" 2 demoTagState
        = ⟨demoTagState, "Orig:string".toList, Res.ok ()⟩ :=
  (Field_Template_tw_three_parts demoEnv "go" 1 2
    ⟨"Orig".toList, some 0, [], "tw:\"int64,true,x\"".toList⟩ demoTagState rfl
    (by decide)).2 demoFieldName "Orig:".toList rfl rfl

/-! ## Field: what the overrides leave behind -/

/-- C13, the code at a `tw` value whose first of two parts is empty: the
method installs a `Basic` with an empty `Type` string and renders it. -/
theorem Field_Template_tw_empty_type (E : Env) (lang : Language) (n : Nat) (t : Ref)
    (f : Field) (s : State) (tn : Tmpl) (txtN flag : Str)
    (ht : s.heap[t]? = some (Node.field f))
    (htw : strings.Split (getTag "tw".toList f.Tag) ',' = [[], flag])
    (hn : newTemplate E "field_name.tmpl" (lang ++ "/field_name.tmpl") = Except.ok tn)
    (hne : tn.Execute (s.heap.set t (Node.field f.renamed)) (Data.ptr t) = (txtN, none))
    (s2 : State)
    (hs2 : s2 = ⟨(s.heap.set t (Node.field f.renamed) ++
            [Node.basic ⟨[], (strconv.ParseBool flag).1⟩]).set t
            (Node.field { f.renamed with Typ := some s.heap.length }),
          s.log ++ (match (strconv.ParseBool flag).2 with
            | some err =>
              [⟨err, [], "error parsing bool for type ".toList ++ f.renamed.Name⟩]
            | none => [])⟩) :
    Field.Template (Templater.Template E lang (n + 1)) E lang t s
        = ⟨s2, txtN ++ (Basic.Template E lang s.heap.length s2).out,
            (Basic.Template E lang s.heap.length s2).res⟩ ∧
      s2.heap[s.heap.length]? = some (Node.basic ⟨[], (strconv.ParseBool flag).1⟩) ∧
      s2.heap[t]? = some (Node.field { f.renamed with Typ := some s.heap.length }) := by
  have hlt : t < s.heap.length := (List.getElem?_eq_some.mp ht).1
  obtain ⟨hc1, hc2, _⟩ := override_cells (Node.field f.renamed)
    (Node.field { f.renamed with Typ := some s.heap.length })
    (Node.basic ⟨[], (strconv.ParseBool flag).1⟩) hlt
  exact ⟨Field_Template_two_parts E lang n t f s tn txtN [] flag ht htw hn hne s2 hs2,
    by rw [hs2]; exact hc2, by rw [hs2]; exact hc1⟩

/-- C13, the failing input: the field `Orig` tagged `tw:",true"` gets a new
`Basic{"", true}` as its `Type` and is rendered as `Orig:*`. -/
theorem Field_Template_tw_empty_type_witness :
    Field.Template (Templater.Template demoEnv "go" 1) demoEnv "go" 3 demoTagState
        = ⟨⟨(demoTagState.heap ++ [Node.basic ⟨[], true⟩]).set 3
            (Node.field ⟨"Orig".toList, some 6, [], "tw:\",true\"".toList⟩), []⟩,
          "Orig:*".toList, Res.ok ()⟩ ∧
      ((demoTagState.heap ++ [Node.basic ⟨[], true⟩]).set 3
          (Node.field ⟨"Orig".toList, some 6, [], "tw:\",true\"".toList⟩))[6]?
        = some (Node.basic ⟨[], true⟩) :=
  ⟨(Field_Template_tw_empty_type demoEnv "go" 0 3
      ⟨"Orig".toList, some 0, [], "tw:\",true\"".toList⟩ demoTagState demoFieldName
      "Orig:".toList "true".toList rfl (by decide) rfl rfl _ rfl).1,
   by decide⟩

theorem Field.renamed_retyped (f : Field) (x : Templater) :
    ({ f.renamed with Typ := x } : Field).renamed = { f.renamed with Typ := x } := by
  by_cases h : tagAlias f.Tag = []
  · have hr : f.renamed = f := Field.renamed_of_no_alias h
    rw [hr]
    exact Field.renamed_of_no_alias h
  · have hr : f.renamed = { f with Name := tagAlias f.Tag } := by
      unfold Field.renamed
      rw [if_pos h]
    rw [hr]
    unfold Field.renamed
    rw [if_pos h]

/-- The run of `Field.Template` on a field with an override `b`, with the
fragments of `demoEnvTyped`, from a state in which the `Type` of the field is
the `Basic` `d`: the `field_name` fragment writes the `Type` string of `d`. -/
theorem Field_Template_typed_run (lang : Language) (n : Nat) (t p : Ref) (f : Field)
    (d b : Basic) (s : State)
    (ht : s.heap[t]? = some (Node.field f))
    (hp : f.Typ = some p)
    (hd : s.heap[p]? = some (Node.basic d))
    (hov : tagOverride f.Tag = some b) :
    ∃ s2 : State,
      Field.Template (Templater.Template demoEnvTyped lang (n + 1)) demoEnvTyped lang t s
        = ⟨s2, f.renamed.Name ++ [' '] ++ d.Typ ++ [':']
            ++ (b.Typ ++ (if b.Pointer then ['*'] else [])), Res.ok ()⟩ ∧
      s2.heap[t]? = some (Node.field { f.renamed with Typ := some s.heap.length }) ∧
      s2.heap[s.heap.length]? = some (Node.basic b) := by
  have hlt : t < s.heap.length := (List.getElem?_eq_some.mp ht).1
  have hpt : t ≠ p := by
    intro e
    rw [e, hd] at ht
    cases ht
  have hs1t : (s.heap.set t (Node.field f.renamed))[t]? = some (Node.field f.renamed) :=
    List.getElem?_set_self hlt
  have hs1p : (s.heap.set t (Node.field f.renamed))[p]? = some (Node.basic d) := by
    rw [List.getElem?_set_ne hpt]
    exact hd
  have hn : newTemplate demoEnvTyped "field_name.tmpl" (lang ++ "/field_name.tmpl")
      = Except.ok demoFieldNameTyped := rfl
  have hne1 : demoFieldNameTyped.Execute (s.heap.set t (Node.field f.renamed)) (Data.ptr t)
      = (f.renamed.Name ++ [' '] ++ d.Typ ++ [':'], none) := by
    simp only [demoFieldNameTyped, hs1t, Field.renamed_Typ, hp, hs1p]
  obtain ⟨s2, hs2, hrun⟩ := Field_Template_override
    (Templater.Template demoEnvTyped lang (n + 1)) demoEnvTyped lang t f s demoFieldNameTyped _ b
    ht hov hn hne1
  obtain ⟨hc1, hc2, _⟩ := override_cells (Node.field f.renamed)
    (Node.field { f.renamed with Typ := some s.heap.length }) (Node.basic b) hlt
  rw [← hs2] at hc1 hc2
  have hb : newTemplate demoEnvTyped "basic.tmpl" (lang ++ "/basic.tmpl")
      = Except.ok demoBasic := rfl
  have hbe : demoBasic.Execute s2.heap (Data.ptr s.heap.length)
      = (b.Typ ++ (if b.Pointer then ['*'] else []), none) := by
    simp only [demoBasic, hc2]
  refine ⟨s2, ?_, hc1, hc2⟩
  rw [hrun, Templater_Template_basic hc2, Basic_Template_eq hb hbe]

/-- C14: rendering is not idempotent.  With the fragment set `demoEnvTyped`,
whose `field_name` fragment writes the `Name` and the `Type` string of the
field, every `Field` with a `tw` override `b` and a declared `Type` `d` of
another `Type` string renders successfully twice in a row, and the second
output differs from the first: the first render leaves the new `Basic` as the
`Type` of the field, and the second `field_name` writes `b` where the first
wrote `d`. -/
theorem Field_Template_not_idempotent (lang : Language) (n : Nat) (t p : Ref) (f : Field)
    (d b : Basic) (s : State)
    (ht : s.heap[t]? = some (Node.field f))
    (hp : f.Typ = some p)
    (hd : s.heap[p]? = some (Node.basic d))
    (hov : tagOverride f.Tag = some b)
    (hne : d.Typ ≠ b.Typ) :
    (Field.Template (Templater.Template demoEnvTyped lang (n + 1)) demoEnvTyped lang t s).res
        = Res.ok () ∧
    (Field.Template (Templater.Template demoEnvTyped lang (n + 1)) demoEnvTyped lang t s).out
        = f.renamed.Name ++ [' '] ++ d.Typ ++ [':']
            ++ (b.Typ ++ (if b.Pointer then ['*'] else [])) ∧
    (Field.Template (Templater.Template demoEnvTyped lang (n + 1)) demoEnvTyped lang t
        (Field.Template (Templater.Template demoEnvTyped lang (n + 1)) demoEnvTyped lang t
          s).st).res = Res.ok () ∧
    (Field.Template (Templater.Template demoEnvTyped lang (n + 1)) demoEnvTyped lang t
        (Field.Template (Templater.Template demoEnvTyped lang (n + 1)) demoEnvTyped lang t
          s).st).out
        = f.renamed.Name ++ [' '] ++ b.Typ ++ [':']
            ++ (b.Typ ++ (if b.Pointer then ['*'] else [])) ∧
    (Field.Template (Templater.Template demoEnvTyped lang (n + 1)) demoEnvTyped lang t
        (Field.Template (Templater.Template demoEnvTyped lang (n + 1)) demoEnvTyped lang t
          s).st).out
      ≠ (Field.Template (Templater.Template demoEnvTyped lang (n + 1)) demoEnvTyped lang t
          s).out := by
  obtain ⟨s2, hrun1, hc1, hc2⟩ := Field_Template_typed_run lang n t p f d b s ht hp hd hov
  have hov2 : tagOverride ({ f.renamed with Typ := some s.heap.length } : Field).Tag
      = some b := by
    show tagOverride f.renamed.Tag = some b
    rw [Field.renamed_Tag]
    exact hov
  obtain ⟨s3, hrun2, _, _⟩ := Field_Template_typed_run lang n t s.heap.length
    { f.renamed with Typ := some s.heap.length } b b s2 hc1 rfl hc2 hov2
  rw [Field.renamed_retyped] at hrun2
  rw [hrun1]
  simp only
  rw [hrun2]
  simp only
  refine ⟨trivial, trivial, trivial, trivial, ?_⟩
  intro h
  simp only [List.append_assoc, List.append_cancel_left_eq] at h
  exact hne (List.append_cancel_right h).symm

/-- C14, worked example: the field of declared type `string` tagged
`json:"alias" tw:"int64,true"` is rendered as `alias string:int64*` the first
time and, from the state the first render left, as `alias int64:int64*` the
second time. -/
theorem Field_Template_not_idempotent_witness :
    (Field.Template (Templater.Template demoEnvTyped "go" 1) demoEnvTyped "go" 5
        demoTagState).out = "alias string:int64*".toList ∧
    (Field.Template (Templater.Template demoEnvTyped "go" 1) demoEnvTyped "go" 5
        (Field.Template (Templater.Template demoEnvTyped "go" 1) demoEnvTyped "go" 5
          demoTagState).st).out = "alias int64:int64*".toList ∧
    (Field.Template (Templater.Template demoEnvTyped "go" 1) demoEnvTyped "go" 5
        (Field.Template (Templater.Template demoEnvTyped "go" 1) demoEnvTyped "go" 5
          demoTagState).st).out
      ≠ (Field.Template (Templater.Template demoEnvTyped "go" 1) demoEnvTyped "go" 5
          demoTagState).out :=
  ⟨(Field_Template_not_idempotent "go" 0 5 0
      ⟨"Orig".toList, some 0, [], "json:\"alias\" tw:\"int64,true\"".toList⟩
      ⟨"string".toList, false⟩ ⟨"int64".toList, true⟩ demoTagState rfl rfl rfl (by decide)
      (by decide)).2.1,
   (Field_Template_not_idempotent "go" 0 5 0
      ⟨"Orig".toList, some 0, [], "json:\"alias\" tw:\"int64,true\"".toList⟩
      ⟨"string".toList, false⟩ ⟨"int64".toList, true⟩ demoTagState rfl rfl rfl (by decide)
      (by decide)).2.2.2.1,
   (Field_Template_not_idempotent "go" 0 5 0
      ⟨"Orig".toList, some 0, [], "json:\"alias\" tw:\"int64,true\"".toList⟩
      ⟨"string".toList, false⟩ ⟨"int64".toList, true⟩ demoTagState rfl rfl rfl (by decide)
      (by decide)).2.2.2.2⟩

/-- C15: a `Field` with a `tw` override has the `field_name` fragment executed
on its cell with the `Name` already renamed and the declared `Type` still in
place, in a heap to which no `Basic` has been added yet; once the fragment has
succeeded the `Type` of the cell is the new `Basic`. -/
theorem Field_Template_field_name_context (E : Env) (lang : Language) (n : Nat) (t : Ref)
    (f : Field) (s : State) (tn : Tmpl) (b : Basic)
    (ht : s.heap[t]? = some (Node.field f))
    (hov : tagOverride f.Tag = some b)
    (hn : newTemplate E "field_name.tmpl" (lang ++ "/field_name.tmpl") = Except.ok tn) :
    (∃ rest, (Field.Template (Templater.Template E lang n) E lang t s).out
      = (tn.Execute (s.heap.set t (Node.field f.renamed)) (Data.ptr t)).1 ++ rest) ∧
    (s.heap.set t (Node.field f.renamed))[t]? = some (Node.field f.renamed) ∧
    (s.heap.set t (Node.field f.renamed)).length = s.heap.length ∧
    f.renamed.Name = (if tagAlias f.Tag ≠ [] then tagAlias f.Tag else f.Name) ∧
    f.renamed.Typ = f.Typ ∧
    ((tn.Execute (s.heap.set t (Node.field f.renamed)) (Data.ptr t)).2 = none →
      (Field.Template (Templater.Template E lang n) E lang t s).st.heap[t]?
          = some (Node.field { f.renamed with Typ := some s.heap.length }) ∧
      (Field.Template (Templater.Template E lang n) E lang t s).st.heap[s.heap.length]?
          = some (Node.basic b)) := by
  have hlt : t < s.heap.length := (List.getElem?_eq_some.mp ht).1
  obtain ⟨K, _, hrun, hout⟩ :=
    Field_Template_split (Framed.Templater_Template E lang n) E lang t f s ht
  refine ⟨?_, List.getElem?_set_self hlt, List.length_set _ _ _, ?_, Field.renamed_Typ f, ?_⟩
  · obtain ⟨rest, hrest⟩ := hout tn hn { s with heap := s.heap.set t (Node.field f.renamed) }
    exact ⟨rest, by rw [hrun, hrest]⟩
  · unfold Field.renamed
    split <;> rfl
  · intro hok
    have hne : tn.Execute (s.heap.set t (Node.field f.renamed)) (Data.ptr t)
        = ((tn.Execute (s.heap.set t (Node.field f.renamed)) (Data.ptr t)).1, none) := by
      rw [← hok]
    obtain ⟨s2, hs2, hrun2⟩ :=
      Field_Template_override (Templater.Template E lang n) E lang t f s tn _ b ht hov hn hne
    obtain ⟨hc1, hc2, _⟩ := override_cells (Node.field f.renamed)
      (Node.field { f.renamed with Typ := some s.heap.length }) (Node.basic b) hlt
    rw [← hs2] at hc1 hc2
    have hst : (Templater.Template E lang n (some s.heap.length) s2).st = s2 := by
      cases n with
      | zero => rfl
      | succ k => rw [Templater_Template_basic hc2, Basic_Template_st]
    rw [hrun2]
    simp only [hst]
    exact ⟨hc1, hc2⟩

/-- C15, worked example: for the field `Orig` of declared type `string` tagged
`json:"alias" tw:"int64,true"`, the `field_name` fragment that reads the `Type`
writes `alias string:`, and after the render the `Type` is the new `Basic`. -/
theorem Field_Template_field_name_context_witness :
    (∃ rest, (Field.Template (Templater.Template demoEnvTyped "go" 1) demoEnvTyped "go" 5
        demoTagState).out = "alias string:".toList ++ rest) ∧
    (Field.Template (Templater.Template demoEnvTyped "go" 1) demoEnvTyped "go" 5
        demoTagState).st.heap[6]? = some (Node.basic ⟨"int64".toList, true⟩) :=
  ⟨(Field_Template_field_name_context demoEnvTyped "go" 1 5
      ⟨"Orig".toList, some 0, [], "json:\"alias\" tw:\"int64,true\"".toList⟩ demoTagState
      demoFieldNameTyped ⟨"int64".toList, true⟩ rfl (by decide) rfl).1,
   ((Field_Template_field_name_context demoEnvTyped "go" 1 5
      ⟨"Orig".toList, some 0, [], "json:\"alias\" tw:\"int64,true\"".toList⟩ demoTagState
      demoFieldNameTyped ⟨"int64".toList, true⟩ rfl (by decide) rfl).2.2.2.2.2 rfl).2⟩

/-! ## Struct: frame and the empty struct; the tag parser on longer keys -/

/-- C17: `Struct.Template` leaves the `Struct` node as it was, however the
render ends and whatever the tags of its fields ask for: the fields (`Name`,
`Type`, `Comment`, `Tag` of each), `Strict` and `Embedded` are the same; and no
cell of the heap is lost. -/
theorem Struct_Template_keeps_struct (E : Env) (lang : Language) (n : Nat) (t : Ref)
    (S : Struct) (s : State) (ht : s.heap[t]? = some (Node.struct S)) :
    (Struct.Template (Templater.Template E lang n) E lang t s).st.heap[t]?
        = some (Node.struct S) ∧
      s.heap.length ≤ (Struct.Template (Templater.Template E lang n) E lang t s).st.heap.length := by
  have hfr := Framed.Struct_Template (Framed.Templater_Template E lang n) E lang t s
  refine ⟨hfr.keeps ht (by simp), ?_⟩
  by_contra hlt
  have hpos : 0 < s.heap.length := by
    have := (List.getElem?_eq_some.mp ht).1
    omega
  have hlast : s.heap.length - 1 < s.heap.length := by omega
  obtain ⟨n', hn', _⟩ := hfr (s.heap.length - 1) _ (List.getElem?_eq_getElem hlast)
  have := (List.getElem?_eq_some.mp hn').1
  omega

/-- C17, worked example: after the render of `demoStruct`, whose first field
has a `json` alias and a `tw` override, the node at address 1 is still
`demoStruct`, with the field named `A` of declared type `string`. -/
theorem Struct_Template_keeps_struct_witness :
    (Struct.Template (Templater.Template demoEnv "go" 1) demoEnv "go" 1
      (demoStructChain 0)).st.heap[1]? = some (Node.struct demoStruct) :=
  (Struct_Template_keeps_struct demoEnv "go" 1 1 demoStruct (demoStructChain 0) rfl).1

/-- C19: a `Struct` without fields is rendered as the output of `struct_open`
followed by the output of `struct_close`; no other fragment is resolved and
nothing else is written. -/
theorem Struct_Template_no_fields (E : Env) (lang : Language) (n : Nat) (t : Ref) (S : Struct)
    (s : State) (tso tsc : Tmpl) (txtO txtC : Str)
    (ht : s.heap[t]? = some (Node.struct S))
    (hnil : S.Fields = [])
    (hso : newTemplate E "struct_open.tmpl" (lang ++ "/struct_open.tmpl") = Except.ok tso)
    (hsoe : tso.Execute s.heap (Data.ptr t) = (txtO, none))
    (hsc : newTemplate E "struct_close.tmpl" (lang ++ "/struct_close.tmpl") = Except.ok tsc)
    (hsce : tsc.Execute s.heap (Data.ptr t) = (txtC, none)) :
    Struct.Template (Templater.Template E lang n) E lang t s
      = ⟨s, txtO ++ txtC, Res.ok ()⟩ := by
  have hloop : Struct.rangeFields (Templater.Template E lang n) E lang t 0 S.Fields s
      = ⟨s, [], Res.ok ()⟩ := by
    rw [hnil]
    rfl
  unfold Struct.Template
  simp only [bind_eq]
  rw [hso, M.bind_eq_of_eq (liftExcept_ok tso s), M.bind_eq_of_eq (Tmpl.run_ok hsoe),
    M.bind_eq_of_eq (derefStruct_eq ht), M.bind_eq_of_eq hloop, hsc,
    M.bind_eq_of_eq (liftExcept_ok tsc _), Tmpl.run_ok hsce]
  simp only [List.nil_append]

/-- C19, worked example: the struct without fields is rendered as `struct { }`,
also by a fragment set that has no `field_name` fragment. -/
theorem Struct_Template_no_fields_witness :
    Struct.Template (Templater.Template (demoEnvWithout "field_name.tmpl") "go" 0)
        (demoEnvWithout "field_name.tmpl") "go" 0 demoEmptyStructState
      = ⟨demoEmptyStructState, "struct \x7b \x7d".toList, Res.ok ()⟩ :=
  Struct_Template_no_fields (demoEnvWithout "field_name.tmpl") "go" 0 0 ⟨[], false, []⟩
    demoEmptyStructState (demoText "struct \x7b ") (demoText "\x7d") "struct \x7b ".toList
    "\x7d".toList rfl rfl rfl rfl rfl rfl

/-- An occurrence that starts before the end of `p` in `p ++ pat ++ w` lies
inside `p ++ pat`. -/
theorem occurrence_inside {p pat w q u : Str} (h : p ++ pat ++ w = q ++ pat ++ u)
    (hq : q.length < p.length) : ∃ u', p ++ pat = q ++ pat ++ u' := by
  have h1 := congrArg (List.take (p ++ pat).length) h
  rw [List.take_left', List.take_append_eq_append_take,
    List.take_of_length_le (by
      simp only [List.length_append]
      omega)] at h1
  exact ⟨_, h1⟩
  rfl

/-- C20: `getTag` looks for the key as a plain substring.  When `k:"` does not
occur in `p ++ k:"` before the end of `p`, and `v` has no double quote, then
`getTag(k, p ++ k:" ++ v ++ " ++ rest) = v`, whatever the last characters of
`p` are. -/
theorem getTag_plain_substring (k p v rest : Str)
    (hv : '"' ∉ v)
    (hfirst : ∀ q u : Str, p ++ (k ++ [':', '"']) = q ++ (k ++ [':', '"']) ++ u →
      p.length ≤ q.length) :
    getTag k (p ++ (k ++ [':', '"']) ++ (v ++ '"' :: rest)) = v := by
  have hfull : ∀ q u : Str,
      p ++ (k ++ [':', '"']) ++ (v ++ '"' :: rest) = q ++ (k ++ [':', '"']) ++ u →
      p.length ≤ q.length := by
    intro q u h
    by_contra hlt
    obtain ⟨u', hu'⟩ := occurrence_inside h (Nat.lt_of_not_le hlt)
    exact hlt (hfirst q u' hu')
  rw [getTag_at_first k p _ hfull]
  have hi : strings.Index (v ++ '"' :: rest) ['"'] = ((0 + v.length : Nat) : Int) :=
    strings.indexFrom_char v rest 0 hv
  have hne : ((0 + v.length : Nat) : Int) ≠ -1 := by omega
  rw [hi, if_neg hne]
  simp

/-- C20, worked example: `getTag("tw", "xtw:\"a\"") = "a"`, the key being the
tail of the longer key `xtw`. -/
theorem getTag_plain_substring_witness :
    getTag "tw".toList "xtw:\"a\"".toList = "a".toList :=
  getTag_plain_substring "tw".toList "x".toList "a".toList [] (by decide)
    (by
      intro q u h
      cases q with
      | nil => simp at h
      | cons c q => simp)

/-! ## Struct: the field a comment is written for -/

/-- C16: in `Struct.Template` the `comment` fragment of field `i` is executed on
`v i`, the copy of the field as its own render left it: `Name` is the `json`
alias when there is one, `Type` is the new `Basic` of the `tw` override when
there is one, and `Comment` and `Tag` are those of the field of the struct. -/
theorem Struct_Template_comment_context (E : Env) (lang : Language) (n : Nat) (t : Ref)
    (S : Struct) (s : State) (tso tsc tfc tcm : Tmpl) (txtO txtC : Str)
    (σ : Nat → State) (fo fc : Nat → Str) (v : Nat → Field)
    (ht : s.heap[t]? = some (Node.struct S))
    (hso : newTemplate E "struct_open.tmpl" (lang ++ "/struct_open.tmpl") = Except.ok tso)
    (hsoe : tso.Execute s.heap (Data.ptr t) = (txtO, none))
    (hσ : σ 0 = s)
    (hF : ∀ i f, S.Fields[i]? = some f →
      Field.Template (Templater.Template E lang n) E lang (σ i).heap.length
          ⟨(σ i).heap ++ [Node.field f], (σ i).log⟩
        = ⟨σ (i + 1), fo i, Res.ok ()⟩)
    (hV : ∀ i, i < S.Fields.length →
      (σ (i + 1)).heap[(σ i).heap.length]? = some (Node.field (v i)))
    (hfcT : 2 ≤ S.Fields.length →
      newTemplate E "field_close.tmpl" (lang ++ "/field_close.tmpl") = Except.ok tfc)
    (hFC : ∀ i, i + 1 < S.Fields.length →
      tfc.Execute (σ (i + 1)).heap Data.nil = (fc i, none))
    (hcm : newTemplate E "comment.tmpl" (lang ++ "/comment.tmpl") = Except.ok tcm)
    (hC : ∀ i, i < S.Fields.length →
      (tcm.Execute (σ (i + 1)).heap (Data.field (v i))).2 = none)
    (hsc : newTemplate E "struct_close.tmpl" (lang ++ "/struct_close.tmpl") = Except.ok tsc)
    (hsce : tsc.Execute (σ S.Fields.length).heap (Data.ptr t) = (txtC, none)) :
    Struct.Template (Templater.Template E lang n) E lang t s
        = ⟨σ S.Fields.length,
            txtO ++ ((List.range S.Fields.length).map (fun i =>
              fo i ++ (if i + 1 < S.Fields.length then
                  fc i ++ (tcm.Execute (σ (i + 1)).heap (Data.field (v i))).1
                else (tcm.Execute (σ (i + 1)).heap (Data.field (v i))).1 ++ ['\n']))).flatten
              ++ txtC,
            Res.ok ()⟩ ∧
      ∀ i f, S.Fields[i]? = some f →
        (v i).Name = (if tagAlias f.Tag ≠ [] then tagAlias f.Tag else f.Name) ∧
        (v i).Comment = f.Comment ∧ (v i).Tag = f.Tag ∧
        (tagOverride f.Tag = none → (v i).Typ = f.Typ) ∧
        (∀ b, tagOverride f.Tag = some b →
          ∃ r, (v i).Typ = some r ∧ (σ (i + 1)).heap[r]? = some (Node.basic b)) := by
  have hT : ∀ i, i ≤ S.Fields.length → (σ i).heap[t]? = some (Node.struct S) := by
    intro i
    induction i with
    | zero =>
      intro _
      rw [hσ]
      exact ht
    | succ i ih =>
      intro hi
      have hi' : i < S.Fields.length := hi
      have hget : S.Fields[i]? = some (S.Fields.get ⟨i, hi'⟩) := List.getElem?_eq_getElem hi'
      have hfr := Framed.Field_Template (Framed.Templater_Template E lang n) E lang
        (σ i).heap.length ⟨(σ i).heap ++ [Node.field (S.Fields.get ⟨i, hi'⟩)], (σ i).log⟩
      rw [hF i _ hget] at hfr
      have hprev := ih (Nat.le_of_lt hi')
      have hltt : t < (σ i).heap.length := (List.getElem?_eq_some.mp hprev).1
      refine hfr.keeps ?_ (by simp)
      show ((σ i).heap ++ [Node.field (S.Fields.get ⟨i, hi'⟩)])[t]? = some (Node.struct S)
      rw [List.getElem?_append_left hltt]
      exact hprev
  have hC' : ∀ i, i < S.Fields.length →
      tcm.Execute (σ (i + 1)).heap (Data.field (v i))
        = ((tcm.Execute (σ (i + 1)).heap (Data.field (v i))).1, none) := by
    intro i hi
    rw [← hC i hi]
  constructor
  · have hloop := Struct_rangeFields_run E lang n t S tfc tcm σ fo fc
      (fun i => (tcm.Execute (σ (i + 1)).heap (Data.field (v i))).1) v hfcT hcm hF hV hFC hC'
      hT S.Fields 0 (Nat.zero_le _) rfl
    rw [hσ] at hloop
    unfold Struct.Template
    simp only [bind_eq]
    rw [hso, M.bind_eq_of_eq (liftExcept_ok tso s), M.bind_eq_of_eq (Tmpl.run_ok hsoe),
      M.bind_eq_of_eq (derefStruct_eq ht), M.bind_eq_of_eq hloop, hsc,
      M.bind_eq_of_eq (liftExcept_ok tsc _), Tmpl.run_ok hsce]
    simp only [List.nil_append, List.append_assoc, List.range_eq_range']
  · intro i f hget
    have hi : i < S.Fields.length := (List.getElem?_eq_some.mp hget).1
    have hcell : ((σ i).heap ++ [Node.field f])[(σ i).heap.length]? = some (Node.field f) := by
      rw [List.getElem?_append_right (Nat.le_refl _)]
      simp
    have hrun := hF i f hget
    obtain ⟨g, hg, hc, htag, hname, htyp⟩ := Field_Template_final_cell E lang n
      (σ i).heap.length f ⟨(σ i).heap ++ [Node.field f], (σ i).log⟩ hcell
    rw [hrun] at hg
    have hgv : g = v i := by
      have h2 := hV i hi
      simp only at hg
      rw [hg] at h2
      simpa using h2
    subst hgv
    refine ⟨?_, hc, htag, ?_, ?_⟩
    · rw [hname]
      unfold Field.renamed
      split <;> rfl
    · intro hov
      rcases htyp with h | h
      · exact h
      · exact absurd hov h
    · intro b hov
      obtain ⟨tn, txt, rest, hn, hne, _⟩ := Field_Template_ok_starts hcell hrun
      obtain ⟨s2, hs2, hrun2⟩ := Field_Template_override (Templater.Template E lang n) E lang
        (σ i).heap.length f ⟨(σ i).heap ++ [Node.field f], (σ i).log⟩ tn txt b hcell hov hn hne
      have hlt : (σ i).heap.length < ((σ i).heap ++ [Node.field f]).length := by simp
      obtain ⟨hc1, hc2, _⟩ := override_cells (Node.field f.renamed)
        (Node.field { f.renamed with
          Typ := some ((σ i).heap ++ [Node.field f]).length }) (Node.basic b) hlt
      simp only at hs2
      rw [← hs2] at hc1 hc2
      rw [hrun2] at hrun
      cases n with
      | zero =>
        have := congrArg Outcome.res hrun
        simp [Templater.Template, outOfFuel] at this
      | succ k =>
        rw [Templater_Template_basic hc2] at hrun
        have hst := congrArg Outcome.st hrun
        simp only [Basic_Template_st] at hst
        have h2 := hV i hi
        rw [← hst, hc1] at h2
        simp only [Option.some.injEq, Node.field.injEq] at h2
        refine ⟨((σ i).heap ++ [Node.field f]).length, ?_, ?_⟩
        · rw [← h2]
        · rw [← hst]
          exact hc2

/-- C16, worked example: in the render of `demoStruct` the comment of the first
field is written for the copy named `a` whose `Type` is the new
`Basic{"int64", true}` at address 3, with the comment `ca` of the field. -/
theorem Struct_Template_comment_context_witness :
    Struct.Template (Templater.Template demoEnv "go" 1) demoEnv "go" 1 (demoStructChain 0)
        = ⟨demoStructChain 2, "struct \x7b a:int64*; //caB:string//cb\n\x7d".toList,
            Res.ok ()⟩ ∧
    ∃ r, (some 3 : Templater) = some r ∧
      (demoStructChain 1).heap[r]? = some (Node.basic ⟨"int64".toList, true⟩) :=
  ⟨(Struct_Template_comment_context demoEnv "go" 1 1 demoStruct (demoStructChain 0)
      (demoText "struct \x7b ") (demoText "\x7d") (demoText "; ") demoComment
      "struct \x7b ".toList "\x7d".toList demoStructChain
      (fun i => if i = 0 then "a:int64*".toList else "B:string".toList)
      (fun _ => "; ".toList)
      (fun i => if i = 0 then
          ⟨"a".toList, some 3, "ca".toList, "json:\"a,omitempty\" tw:\"int64,true\"".toList⟩
        else ⟨"B".toList, some 0, "cb".toList, []⟩)
      rfl rfl rfl rfl
      (by
        intro i f h
        rcases i with _ | _ | i
        · cases h; rfl
        · cases h; rfl
        · cases h)
      (by
        intro i h
        rcases i with _ | _ | i
        · rfl
        · rfl
        · exact absurd h (by simp [demoStruct]))
      (fun _ => rfl)
      (by
        intro i h
        rcases i with _ | i
        · rfl
        · exact absurd h (by simp [demoStruct]))
      rfl
      (by
        intro i h
        rcases i with _ | _ | i
        · rfl
        · rfl
        · exact absurd h (by simp [demoStruct]))
      rfl rfl).1,
   ((Struct_Template_comment_context demoEnv "go" 1 1 demoStruct (demoStructChain 0)
      (demoText "struct \x7b ") (demoText "\x7d") (demoText "; ") demoComment
      "struct \x7b ".toList "\x7d".toList demoStructChain
      (fun i => if i = 0 then "a:int64*".toList else "B:string".toList)
      (fun _ => "; ".toList)
      (fun i => if i = 0 then
          ⟨"a".toList, some 3, "ca".toList, "json:\"a,omitempty\" tw:\"int64,true\"".toList⟩
        else ⟨"B".toList, some 0, "cb".toList, []⟩)
      rfl rfl rfl rfl
      (by
        intro i f h
        rcases i with _ | _ | i
        · cases h; rfl
        · cases h; rfl
        · cases h)
      (by
        intro i h
        rcases i with _ | _ | i
        · rfl
        · rfl
        · exact absurd h (by simp [demoStruct]))
      (fun _ => rfl)
      (by
        intro i h
        rcases i with _ | i
        · rfl
        · exact absurd h (by simp [demoStruct]))
      rfl
      (by
        intro i h
        rcases i with _ | _ | i
        · rfl
        · rfl
        · exact absurd h (by simp [demoStruct]))
      rfl rfl).2 0
      ⟨"A".toList, some 0, "ca".toList, "json:\"a,omitempty\" tw:\"int64,true\"".toList⟩
      rfl).2.2.2.2 ⟨"int64".toList, true⟩ (by decide)⟩

/-! ## Fuel: more fuel never changes a render that ended -/

theorem Extends.same {α : Type} (m : M α) : Extends m m := fun _ _ => rfl

theorem Extends.bind_both {α β : Type} {m m' : M α} {f f' : α → M β} (hm : Extends m m')
    (hf : ∀ a, Extends (f a) (f' a)) : Extends (M.bind m f) (M.bind m' f') := by
  intro s h
  rw [M.bind_res] at h
  have hms : (m s).res ≠ Res.outOfFuel := by
    intro e
    rw [e] at h
    exact h rfl
  rw [M.bind_res, M.bind_res, hm s hms]
  cases hr : (m s).res with
  | ok a =>
    rw [hr] at h
    simp only at h ⊢
    rw [hf a (m s).st h]
  | err e => rfl
  | panic => rfl
  | outOfFuel => exact absurd hr hms

theorem Extends.bind_right {α β : Type} (m : M α) {f f' : α → M β}
    (hf : ∀ a, Extends (f a) (f' a)) : Extends (M.bind m f) (M.bind m f') :=
  Extends.bind_both (Extends.same m) hf

theorem Extends.of_Field_Template {dyn dyn' : Templater → M Unit} (hd : ∀ x, Extends (dyn x) (dyn' x))
    (E : Env) (lang : Language) (t : Ref) :
    Extends (Field.Template dyn E lang t) (Field.Template dyn' E lang t) := by
  unfold Field.Template
  simp only [bind_eq]
  refine Extends.bind_right _ (fun _ => ?_)
  refine Extends.bind_right _ (fun _ => ?_)
  refine Extends.bind_right _ (fun _ => ?_)
  refine Extends.bind_right _ (fun _ => ?_)
  refine Extends.bind_right _ (fun _ => ?_)
  refine Extends.bind_right _ (fun _ => ?_)
  exact Extends.bind_right _ (fun _ => hd _)

theorem Extends.of_Struct_rangeFields {dyn dyn' : Templater → M Unit}
    (hd : ∀ x, Extends (dyn x) (dyn' x)) (E : Env) (lang : Language) (t : Ref)
    (fs : List Field) :
    ∀ i, Extends (Struct.rangeFields dyn E lang t i fs) (Struct.rangeFields dyn' E lang t i fs) := by
  induction fs with
  | nil =>
    intro i
    unfold Struct.rangeFields
    exact Extends.same _
  | cons v rest ih =>
    intro i
    unfold Struct.rangeFields
    simp only [bind_eq]
    refine Extends.bind_right _ (fun _ => ?_)
    refine Extends.bind_both (Extends.of_Field_Template hd E lang _) (fun _ => ?_)
    refine Extends.bind_right _ (fun _ => ?_)
    exact Extends.bind_right _ (fun _ => ih _)

theorem Extends.of_Struct_Template {dyn dyn' : Templater → M Unit}
    (hd : ∀ x, Extends (dyn x) (dyn' x)) (E : Env) (lang : Language) (t : Ref) :
    Extends (Struct.Template dyn E lang t) (Struct.Template dyn' E lang t) := by
  unfold Struct.Template
  simp only [bind_eq]
  refine Extends.bind_right _ (fun _ => ?_)
  refine Extends.bind_right _ (fun _ => ?_)
  refine Extends.bind_right _ (fun _ => ?_)
  exact Extends.bind_both (Extends.of_Struct_rangeFields hd E lang t _ _) (fun _ => Extends.same _)

theorem Extends.of_Map_Template {dyn dyn' : Templater → M Unit}
    (hd : ∀ x, Extends (dyn x) (dyn' x)) (E : Env) (lang : Language) (t : Ref) :
    Extends (Map.Template dyn E lang t) (Map.Template dyn' E lang t) := by
  unfold Map.Template
  simp only [bind_eq]
  refine Extends.bind_right _ (fun _ => ?_)
  refine Extends.bind_right _ (fun _ => ?_)
  refine Extends.bind_right _ (fun _ => ?_)
  refine Extends.bind_both (hd _) (fun _ => ?_)
  refine Extends.bind_right _ (fun _ => ?_)
  refine Extends.bind_right _ (fun _ => ?_)
  refine Extends.bind_right _ (fun _ => ?_)
  exact Extends.bind_both (hd _) (fun _ => Extends.same _)

theorem Extends.of_Array_Template {dyn dyn' : Templater → M Unit}
    (hd : ∀ x, Extends (dyn x) (dyn' x)) (E : Env) (lang : Language) (t : Ref) :
    Extends (Array.Template dyn E lang t) (Array.Template dyn' E lang t) := by
  unfold Array.Template
  simp only [bind_eq]
  refine Extends.bind_right _ (fun _ => ?_)
  refine Extends.bind_right _ (fun _ => ?_)
  refine Extends.bind_right _ (fun _ => ?_)
  exact Extends.bind_both (hd _) (fun _ => Extends.same _)

theorem Extends.of_PackageType_Template {dyn dyn' : Templater → M Unit}
    (hd : ∀ x, Extends (dyn x) (dyn' x)) (E : Env) (lang : Language) (t : Ref) :
    Extends (PackageType.Template dyn E lang t) (PackageType.Template dyn' E lang t) := by
  unfold PackageType.Template
  simp only [bind_eq]
  refine Extends.bind_right _ (fun _ => ?_)
  refine Extends.bind_right _ (fun _ => ?_)
  refine Extends.bind_right _ (fun p => ?_)
  split
  · exact Extends.same _
  · exact hd _

/-- One more unit of fuel gives the same outcome to every render that did not
run out of fuel. -/
theorem Extends.Templater_Template_succ (E : Env) (lang : Language) :
    ∀ (n : Nat) (x : Templater),
      Extends (Templater.Template E lang n x) (Templater.Template E lang (n + 1) x) := by
  intro n
  induction n with
  | zero =>
    intro x
    cases x with
    | none => exact Extends.same _
    | some r =>
      intro s h
      exact absurd rfl h
  | succ n ih =>
    intro x
    cases x with
    | none => exact Extends.same _
    | some r =>
      intro s h
      unfold Templater.Template at h ⊢
      split
      · rfl
      · rfl
      · next hh =>
        simp only [hh] at h
        exact Extends.of_Map_Template ih E lang r s h
      · next hh =>
        simp only [hh] at h
        exact Extends.of_Array_Template ih E lang r s h
      · next hh =>
        simp only [hh] at h
        exact Extends.of_Struct_Template ih E lang r s h
      · next hh =>
        simp only [hh] at h
        exact Extends.of_Field_Template ih E lang r s h
      · next hh =>
        simp only [hh] at h
        exact Extends.of_PackageType_Template ih E lang r s h

/-- A render that ended with fuel `n`, by returning or by a panic, ends in the
same way, in the same state and with the same output, with any fuel `m ≥ n`. -/
theorem Templater_Template_fuel_mono (E : Env) (lang : Language) (n m : Nat) (hnm : n ≤ m)
    (x : Templater) (s : State) (h : (Templater.Template E lang n x s).res ≠ Res.outOfFuel) :
    Templater.Template E lang m x s = Templater.Template E lang n x s := by
  induction m with
  | zero =>
    have : n = 0 := Nat.le_zero.mp hnm
    subst this
    rfl
  | succ m ih =>
    by_cases hm : n ≤ m
    · have h1 := ih hm
      have h2 := Extends.Templater_Template_succ E lang m x s (by rw [h1]; exact h)
      rw [h2, h1]
    · have : n = m + 1 := by omega
      subst this
      rfl

/-- Worked example of `Templater_Template_fuel_mono`: the `Map` of the examples
renders with fuel 2, hence renders the same with fuel 7. -/
theorem Templater_Template_fuel_mono_witness :
    Templater.Template demoEnv "go" 7 (some 2) demoMapState
      = ⟨demoMapState, "map[string]int".toList, Res.ok ()⟩ :=
  (Templater_Template_fuel_mono demoEnv "go" 2 7 (by decide) (some 2) demoMapState
    (by decide)).trans (by decide)


end template
